import Mathlib

set_option maxRecDepth 100000

/-!
Verification development for the PalGenoPedia extraction pipeline.

The Python sources are shallowly embedded:
* `Gendata/daily_extractor.py`  (casualty extraction, location, classification,
  date parsing, CSV merge) in namespace `Gendata`;
* `incident-extractor/extractor/text_parser.py` and `url_parser.py`
  (per-paragraph incident extraction, batch URL processing) in namespace `Extr`;
* `user/bin.py` (digest-mode scraping helpers, title dedup) in namespace `UserBin`.

Python's `re` module is embedded by a small backtracking engine over an
explicit regex AST (`RE`); `reAll` lists every parse in exactly the order a
backtracking engine explores them (alternatives left first, greedy loops long
first, lazy loops short first), so `head?` is the match Python returns.
Machine integers do not occur (Python ints are unbounded), so `Nat` is used
directly.  Network and HTML parsing (requests/BeautifulSoup/NLTK/spaCy) are
external libraries, modelled as oracle parameters where a claim needs them.
-/

namespace PalGeno

/-! ### Python string primitives -/

/-- Python `\s` for the ASCII range (space, tab, newline, CR, VT, FF). -/
def pyIsSpace (c : Char) : Bool :=
  c == ' ' || c == '\t' || c == '\n' || c == '\r' ||
  c == Char.ofNat 11 || c == Char.ofNat 12

/-- Pattern `[A-Za-z]`. -/
def isAsciiAlpha (c : Char) : Bool :=
  ('a' ≤ c && c ≤ 'z') || ('A' ≤ c && c ≤ 'Z')

/-- Pattern `\d` (ASCII). -/
def isAsciiDigit (c : Char) : Bool :=
  '0' ≤ c && c ≤ '9'

def toLowerL (s : List Char) : List Char := s.map Char.toLower

/-- Python `needle` is a contiguous prefix of `hay` (exact character match). -/
def prefixMatch : List Char → List Char → Bool
  | [], _ => true
  | _ :: _, [] => false
  | a :: as, b :: bs => a == b && prefixMatch as bs

/-- Python `needle in hay` for strings (empty needle always matches). -/
def subIn (needle : List Char) : List Char → Bool
  | [] => needle.isEmpty
  | b :: bs => prefixMatch needle (b :: bs) || subIn needle bs

/-- Python `needle in hay` on `String`s. -/
def pyIn (needle hay : String) : Bool := subIn needle.toList hay.toList

/-- Python `str.strip()` (strip surrounding whitespace). -/
def pyStripL (s : List Char) : List Char :=
  ((s.dropWhile pyIsSpace).reverse.dropWhile pyIsSpace).reverse

def pyStrip (s : String) : String := ⟨pyStripL s.toList⟩

/-- Python `str.split()` with no argument: split on whitespace runs, no empties. -/
def pySplitWsAux : List Char → List Char → List String
  | [], cur => if cur.isEmpty then [] else [⟨cur.reverse⟩]
  | c :: rest, cur =>
    if pyIsSpace c then
      if cur.isEmpty then pySplitWsAux rest []
      else ⟨cur.reverse⟩ :: pySplitWsAux rest []
    else pySplitWsAux rest (c :: cur)

def pySplitWs (s : String) : List String := pySplitWsAux s.toList []

/-- Python `str.split(sep)` for a one-character separator (keeps empties). -/
def splitOnCharAux (sep : Char) : List Char → List Char → List String
  | [], cur => [⟨cur.reverse⟩]
  | c :: rest, cur =>
    if c == sep then ⟨cur.reverse⟩ :: splitOnCharAux sep rest []
    else splitOnCharAux sep rest (c :: cur)

def pySplitChar (sep : Char) (s : String) : List String :=
  splitOnCharAux sep s.toList []

/-- Python `str.split(sep)` for a multi-character separator (keeps empties). -/
def splitOnSubAux (sep : List Char) : Nat → List Char → List Char → List String
  | 0, rest, cur => [⟨cur.reverse ++ rest⟩]
  | _ + 1, [], cur => [⟨cur.reverse⟩]
  | fuel + 1, c :: rest, cur =>
    if prefixMatch sep (c :: rest) then
      ⟨cur.reverse⟩ :: splitOnSubAux sep fuel ((c :: rest).drop sep.length) []
    else splitOnSubAux sep fuel rest (c :: cur)

def pySplitSub (sep : String) (s : String) : List String :=
  splitOnSubAux sep.toList (s.toList.length + 1) s.toList []

/-- Python `sep.join(parts)`. -/
def pyJoin (sep : String) : List String → String
  | [] => ""
  | [x] => x
  | x :: xs => x ++ sep ++ pyJoin sep xs

/-- Decimal rendering of a natural number (Python `str(n)` / `%d`). -/
def natDec (n : Nat) : List Char :=
  if n < 10 then [Nat.digitChar n]
  else natDec (n / 10) ++ [Nat.digitChar (n % 10)]
decreasing_by exact Nat.div_lt_self (by omega) (by omega)

def natDecS (n : Nat) : String := ⟨natDec n⟩

/-- Two-digit zero padding, as Python `%02d` / `strftime` `%m`/`%d`/`%H`. -/
def pad2 (n : Nat) : String := if n < 10 then "0" ++ natDecS n else natDecS n

/-- Numeric value of a digit string (as Python `int` on a `\d+` capture). -/
def natOfDigits (s : List Char) : Nat :=
  s.foldl (fun acc c => acc * 10 + (c.toNat - '0'.toNat)) 0

def natOfString (s : String) : Nat := natOfDigits s.toList

/-! ### A backtracking regex engine

`reAll` returns every way the pattern can match a *prefix* of the input, as
`(remaining input, capture of the single `(\d+)` group)` pairs, in exactly the
order Python's backtracking engine would find them.  All patterns appearing in
this repository contain at most one capturing group, always `(\d+)`, so the
capture is a single optional string.  Literals compare case-insensitively
because every compiled pattern in the sources either uses `re.IGNORECASE` or
is matched against already-lowercased text. -/

inductive RE : Type where
  /-- empty pattern -/
  | eps : RE
  /-- a literal character, stored lowercase, matched case-insensitively -/
  | lit : Char → RE
  /-- a character class -/
  | cls : (Char → Bool) → RE
  /-- concatenation -/
  | seq : RE → RE → RE
  /-- ordered alternation (left preferred, as Python) -/
  | alt : RE → RE → RE
  /-- lazy Kleene star `*?` (fewest repetitions preferred) -/
  | starL : RE → RE
  /-- greedy Kleene star `*` (most repetitions preferred) -/
  | starG : RE → RE
  /-- the capturing group `(\d+)` (greedy, one or more ASCII digits) -/
  | grpDigits : RE

/-- Longest digit prefix of the input. -/
def digitTake : List Char → List Char
  | [] => []
  | c :: rest => if isAsciiDigit c then c :: digitTake rest else []

/-- All ways `\d+` can match a prefix, longest (greedy) first:
`(digits, rest)` pairs. -/
def digitSplits (s : List Char) : List (List Char × List Char) :=
  let ds := digitTake s
  (List.range ds.length).map
    (fun k => (ds.take (ds.length - k), (s.drop (ds.length - k))))

/-- All prefix matches of `r` against `s`, in Python backtracking order.
`c` is the current value of the `(\d+)` capture group.  `fuel` bounds the
recursion depth; every theorem below that quantifies over texts holds for
any fuel, and concrete evaluations use `fuelFor`, which is ample for the
patterns of this repository. -/
def reAll : Nat → RE → List Char → Option (List Char) →
    List (List Char × Option (List Char))
  | 0, _, _, _ => []
  | _ + 1, .eps, s, c => [(s, c)]
  | _ + 1, .lit ch, s, c =>
    match s with
    | [] => []
    | x :: xs => if x.toLower == ch then [(xs, c)] else []
  | _ + 1, .cls p, s, c =>
    match s with
    | [] => []
    | x :: xs => if p x then [(xs, c)] else []
  | n + 1, .seq r1 r2, s, c =>
    (reAll n r1 s c).flatMap (fun sc => reAll n r2 sc.1 sc.2)
  | n + 1, .alt r1 r2, s, c => reAll n r1 s c ++ reAll n r2 s c
  | n + 1, .starL r, s, c =>
    (s, c) :: (reAll n r s c).flatMap (fun sc => reAll n (.starL r) sc.1 sc.2)
  | n + 1, .starG r, s, c =>
    ((reAll n r s c).flatMap (fun sc => reAll n (.starG r) sc.1 sc.2)) ++ [(s, c)]
  | _ + 1, .grpDigits, s, _ =>
    (digitSplits s).map (fun p => (p.2, some p.1))

/-- Fuel that is ample for every pattern in this repository. -/
def fuelFor (s : List Char) : Nat := 16 * s.length + 1024

/-- The match Python's engine would return when the pattern is anchored at the
start of `s`: the first parse in backtracking order. -/
def matchAtPos (r : RE) (s : List Char) : Option (List Char × Option (List Char)) :=
  (reAll (fuelFor s) r s none).head?

/-! Pattern-building helpers (sequencing lists, literal words, keyword
alternations), so that each Python pattern below can be transcribed shape
for shape. -/

def rseq : List RE → RE
  | [] => .eps
  | [r] => r
  | r :: rs => .seq r (rseq rs)

/-- A literal word, stored lowercase (case-insensitive match). -/
def rlit (w : String) : RE := rseq (w.toList.map (fun c => RE.lit c.toLower))

/-- Ordered alternation of a list of patterns (first preferred). -/
def raltL : List RE → RE
  | [] => .eps
  | [r] => r
  | r :: rs => .alt r (raltL rs)

/-- Pattern `(?:w1|w2|...)` of literal words. -/
def rwords (ws : List String) : RE := raltL (ws.map rlit)

/-- Pattern `.` (any character except newline, as Python without DOTALL). -/
def rdot : RE := .cls (fun c => !(c == '\n'))

/-- Pattern `.*?` -/
def rlazy : RE := .starL rdot

/-- Pattern `.?` (greedy optional any-char). -/
def ranyOpt : RE := .alt rdot .eps

/-- Pattern `\s+` -/
def rspace1 : RE := .seq (.cls pyIsSpace) (.starG (.cls pyIsSpace))

/-- greedy `r?` -/
def ropt (r : RE) : RE := .alt r .eps

/-- Pattern `\d{1,2}` (greedy). -/
def rd12 : RE := .seq (.cls isAsciiDigit) (ropt (.cls isAsciiDigit))

/-- Pattern `\d{4}` -/
def rd4 : RE := rseq [.cls isAsciiDigit, .cls isAsciiDigit, .cls isAsciiDigit, .cls isAsciiDigit]

/-- Pattern `[A-Za-z]+` (greedy). -/
def ralpha1 : RE := .seq (.cls isAsciiAlpha) (.starG (.cls isAsciiAlpha))

/-! ### Scanning: `re.search` / `re.findall` / first `re.finditer` entry

Python scans candidate start positions left to right; at each position the
backtracking engine returns its preferred match.  `findall` then continues
after the end of each match (all patterns in this repository consume at least
one character on success, and the embedding advances by one character on an
empty match exactly as CPython does). -/

/-- Captures of all non-overlapping matches, left to right (`re.findall`
with one group). `fuel` decreases at each step. -/
def findallCapsAux (r : RE) : Nat → List Char → List String
  | 0, _ => []
  | _ + 1, [] =>
    match matchAtPos r [] with
    | some (_, cap) => [⟨cap.getD []⟩]
    | none => []
  | fuel + 1, s =>
    match matchAtPos r s with
    | some (rest, cap) =>
      if rest.length < s.length then
        ⟨cap.getD []⟩ :: findallCapsAux r fuel rest
      else ⟨cap.getD []⟩ :: findallCapsAux r fuel (s.drop 1)
    | none => findallCapsAux r fuel (s.drop 1)

def findallCaps (r : RE) (s : List Char) : List String :=
  findallCapsAux r (s.length + 1) s

/-- The numbers delivered by `re.findall` for one casualty pattern
(`[int(m) for m in matches if m.isdigit()]`; every capture of `(\d+)` is a
digit string, so the filter keeps everything). -/
def findallNums (r : RE) (s : List Char) : List Nat :=
  (findallCaps r s).map natOfString

/-- The text of the first match in the string, scanning start positions left
to right (`re.search(...).group(0)` / first `re.finditer` entry). -/
def firstMatchStr (r : RE) : List Char → Option String
  | [] =>
    match matchAtPos r [] with
    | some _ => some ""
    | none => none
  | c :: rest =>
    match matchAtPos r (c :: rest) with
    | some (after, _) =>
      some ⟨(c :: rest).take ((c :: rest).length - after.length)⟩
    | none => firstMatchStr r rest

/-- Capture of the first match scanning left to right
(`re.search(...).group(1)`). -/
def firstCapNum (r : RE) : List Char → Option Nat
  | [] =>
    match matchAtPos r [] with
    | some (_, cap) => some (natOfDigits (cap.getD []))
    | none => none
  | c :: rest =>
    match matchAtPos r (c :: rest) with
    | some (_, cap) => some (natOfDigits (cap.getD []))
    | none => firstCapNum r rest

end PalGeno

namespace PalGeno

/-- Python `max` of a Python list of numbers (used only on nonempty lists, as the
source guards with `if matches:` / catches `ValueError` from `max([])`). -/
def maxList (l : List Nat) : Nat := l.foldl max 0

namespace Gendata

/-! ### `Gendata/daily_extractor.py` — `extract_casualties_from_text`

Each Python pattern string is transcribed node for node. -/

/-- Pattern `(?:killed|dead|deaths?|died|fatalities)` -/
def kwDeath : RE :=
  raltL [rlit "killed", rlit "dead", .seq (rlit "death") (ropt (.lit 's')),
         rlit "died", rlit "fatalities"]

def death_patterns : List RE :=
  [ rseq [.grpDigits, rlazy, kwDeath],
    rseq [kwDeath, rlazy, .grpDigits],
    rseq [.grpDigits, rlazy, rwords ["people", "persons", "individuals"], rlazy,
          rwords ["killed", "dead", "died"]],
    rseq [rwords ["killing", "killed"], rlazy, .grpDigits],
    rseq [.grpDigits, rlazy, rlit "journalists", rlazy, rwords ["killed", "dead"]],
    rseq [rwords ["among", "including"], rlazy, .grpDigits, rlazy,
          rwords ["killed", "dead"]],
    rseq [rlit "death", rlazy, rlit "toll", rlazy, .grpDigits],
    rseq [.grpDigits, rlazy, rwords ["have been", "were"], rlazy, rlit "killed"] ]

def injured_patterns : List RE :=
  [ rseq [.grpDigits, rlazy, rwords ["injured", "wounded", "hurt"]],
    rseq [rwords ["injured", "wounded", "hurt"], rlazy, .grpDigits],
    rseq [.grpDigits, rlazy, rwords ["people", "persons"], rlazy,
          rwords ["injured", "wounded"]],
    rseq [rwords ["injuring", "wounding"], rlazy, .grpDigits] ]

def hospitalized_patterns : List RE :=
  [ rseq [.grpDigits, rlazy, rwords ["hospitalized", "admitted", "taken to hospital"]],
    rseq [rwords ["hospitalized", "admitted", "taken to hospital"], rlazy, .grpDigits] ]

/-- Pattern `(?:al.?jazeera|journalist|reporter|media)` -/
def kwPress : RE :=
  raltL [rseq [rlit "al", ranyOpt, rlit "jazeera"], rlit "journalist",
         rlit "reporter", rlit "media"]

def journalist_patterns : List RE :=
  [ rseq [.grpDigits, rlazy, kwPress, rlazy, rwords ["killed", "dead"]],
    rseq [kwPress, rlazy, .grpDigits, rlazy, rwords ["killed", "dead"]],
    rseq [.grpDigits, rlazy, rwords ["killed", "dead"], rlazy, kwPress],
    rseq [rwords ["among", "including"], rlazy, .grpDigits, rlazy,
          raltL [rseq [rlit "al", ranyOpt, rlit "jazeera"], rlit "journalist"]],
    rseq [.grpDigits, rlazy,
          rwords ["journalists", "reporters", "media personnel"], rlazy,
          rwords ["killed", "dead"]] ]

structure Casualties where
  affected : Nat
  critical : Nat
  deaths : Nat
  injured : Nat
  hospitalized : Nat
deriving DecidableEq, Repr

/-- One pass of the journalist loop / the per-category loop body:
`if matches: casualties[...] = max(casualties[...], max(numbers))`. -/
def foldMaxPatterns (pats : List RE) (tl : List Char) (init : Nat) : Nat :=
  pats.foldl
    (fun acc p =>
      let numbers := findallNums p tl
      if numbers.isEmpty then acc else max acc (maxList numbers))
    init

/-- The per-category pass: `max_found` over the pattern list, then
`if max_found > 0: casualties[t] = max(casualties[t], max_found)`. -/
def categoryValue (pats : List RE) (tl : List Char) (prev : Nat) : Nat :=
  let max_found := foldMaxPatterns pats tl 0
  if max_found > 0 then max prev max_found else prev

/-- Embedding of `GazaCrisisExtractor.extract_casualties_from_text` (daily_extractor.py,
lines 343-430). -/
def extract_casualties_from_text (text : String) : Casualties :=
  if text = "" then ⟨0, 0, 0, 0, 0⟩
  else
    let tl := toLowerL text.toList
    let jdeaths := foldMaxPatterns journalist_patterns tl 0
    let deaths := categoryValue death_patterns tl jdeaths
    let injured := categoryValue injured_patterns tl 0
    let hospitalized := categoryValue hospitalized_patterns tl 0
    let affected := max deaths (max injured hospitalized)
    let affected := if deaths > 0 && affected == 0 then deaths else affected
    ⟨affected, 0, deaths, injured, hospitalized⟩

/-! ### `extract_location`, `classify_incident_type`, `clean_text` -/

def gaza_locations : List String :=
  ["Gaza City", "Gaza", "Rafah", "Khan Younis", "Khan Yunis", "Deir al-Balah",
   "Beit Hanoun", "Beit Lahia", "Jabalia", "Jabaliya", "Shejaiya", "Zeitoun",
   "Al-Maghazi", "Al-Bureij", "Nuseirat", "Al-Zahra", "Tal al-Hawa"]

/-- The loop body of `extract_location`: first gazetteer entry (in list
order) whose lowercase form is a substring of `text`. -/
def firstLocation (locs : List String) (text : String) : Option String :=
  match locs with
  | [] => none
  | l :: rest =>
    if pyIn (⟨toLowerL l.toList⟩ : String) text then some l
    else firstLocation rest text

/-- Embedding of `GazaCrisisExtractor.extract_location` (daily_extractor.py, lines 325-341). -/
def extract_location (title description : String) : String :=
  let text : String := ⟨toLowerL (title ++ " " ++ description).toList⟩
  match firstLocation gaza_locations text with
  | some l => l
  | none => "Gaza"

def classifications : List (String × List String) :=
  [ ("casualties", ["killed", "dead", "death", "casualties", "bombing", "strike",
                    "attack", "journalist", "reporter"]),
    ("hunger", ["starvation", "malnutrition", "hunger", "food", "famine"]),
    ("water", ["water", "thirst", "dehydration"]),
    ("aid", ["aid", "humanitarian", "relief", "supplies"]),
    ("infrastructure", ["hospital", "school", "building", "destroyed", "damage"]) ]

/-- Embedding of `GazaCrisisExtractor.classify_incident_type` (daily_extractor.py, lines
432-450): first declared category with any keyword hit, else `"casualties"`. -/
def classify_incident_type (title description : String) : String :=
  let text : String := ⟨toLowerL (title ++ " " ++ description).toList⟩
  match classifications.find? (fun c => c.2.any (fun kw => pyIn kw text)) with
  | some c => c.1
  | none => "casualties"

/-- Python `re.sub(r'\s+', ' ', text)`: each maximal whitespace run becomes one
space.  The flag records whether the previous character was whitespace. -/
def collapseWsAux : List Char → Bool → List Char
  | [], _ => []
  | c :: rest, prevSpace =>
    if pyIsSpace c then
      if prevSpace then collapseWsAux rest true
      else ' ' :: collapseWsAux rest true
    else c :: collapseWsAux rest false

/-- Embedding of `GazaCrisisExtractor.clean_text` (daily_extractor.py, lines 474-486):
collapse whitespace runs, strip, make CSV-safe. -/
def clean_text (text : String) : String :=
  if text = "" then ""
  else
    let t : List Char := pyStripL (collapseWsAux text.toList false)
    ⟨t.map (fun c => if c == '"' then Char.ofNat 39 else if c == '\n' then ' '
                     else if c == '\r' then ' ' else c)⟩

/-- The description field of `parse_aljazeera_article` (daily_extractor.py,
line 214): `self.clean_text(content_text)[:2000]` (a Python string slice is
a character-list prefix). -/
def articleDescription (content_text : String) : String :=
  ⟨(clean_text content_text).toList.take 2000⟩

end Gendata

end PalGeno

namespace PalGeno

/-- All full-match texts of the non-overlapping matches, left to right
(`re.finditer`, taking `match.group(0)`). -/
def findallStrsAux (r : RE) : Nat → List Char → List String
  | 0, _ => []
  | _ + 1, [] =>
    match matchAtPos r [] with
    | some _ => [""]
    | none => []
  | fuel + 1, s =>
    match matchAtPos r s with
    | some (rest, _) =>
      let matched : String := ⟨s.take (s.length - rest.length)⟩
      if rest.length < s.length then matched :: findallStrsAux r fuel rest
      else matched :: findallStrsAux r fuel (s.drop 1)
    | none => findallStrsAux r fuel (s.drop 1)

def findallStrs (r : RE) (s : List Char) : List String :=
  findallStrsAux r (s.length + 1) s

/-- A Python `datetime` value (the processing instant `datetime.now()` is
passed explicitly, since the embedding is pure). -/
structure DateTimeV where
  year : Nat
  month : Nat
  day : Nat
  hour : Nat
  minute : Nat
  second : Nat
deriving DecidableEq, Repr

def monthNames : List String :=
  ["January", "February", "March", "April", "May", "June", "July",
   "August", "September", "October", "November", "December"]

/-- Python `strftime('%B')`. -/
def monthName (m : Nat) : String := (monthNames.drop (m - 1)).headD ""

/-- Python `strftime('%Y')` as glibc renders it (no zero padding below 1000; every
realistic year has four digits). -/
def fmtYear (y : Nat) : String := natDecS y

namespace Extr

/-! ### `incident-extractor/extractor/text_parser.py` -/

def GAZA_LOCATIONS : List String :=
  ["Gaza City", "Gaza Strip", "Rafah", "Khan Younis", "Jabalia", "Beit Lahiya",
   "Beit Hanoun", "Deir al-Balah", "Nuseirat", "Al-Shati", "Beach Camp",
   "Bureij", "Maghazi", "Northern Gaza", "Central Gaza", "Southern Gaza",
   "Jabalia Camp", "Shuja\x27iyya", "Zeitoun", "Tuffah", "Daraj", "Sabra"]

def INCIDENT_TYPES : List (String × List String) :=
  [ ("casualties", ["killed", "died", "death", "fatality", "fatalities",
                    "casualty", "casualties", "bodies", "body count", "death toll"]),
    ("injuries", ["wounded", "injured", "injury", "injuries", "hurt", "maimed",
                  "trauma", "wounded"]),
    ("infrastructure", ["hospital", "school", "mosque", "church", "building",
                        "destroyed", "damaged", "infrastructure", "facility",
                        "bakery", "water", "sewage", "electricity", "power",
                        "university"]),
    ("displacement", ["refugee", "displaced", "evacuation", "fled", "homeless",
                      "shelter", "camp", "evacuated", "evacuation order"]),
    ("hunger", ["hunger", "starvation", "malnourished", "malnutrition",
                "food crisis", "food shortage", "famine"]),
    ("water", ["water shortage", "clean water", "drinking water", "water system",
               "contaminated water", "water crisis"]),
    ("aid", ["aid", "humanitarian", "relief", "supplies", "blocked", "convoy",
             "donation", "assistance", "red cross", "unrwa", "red crescent"]),
    ("medical", ["medicine", "medical supplies", "doctor", "nurse", "hospital",
                 "clinic", "surgeon", "healthcare", "patient", "ambulance",
                 "paramedic"]) ]

/-- The `DATE_PATTERNS` list, each regex transcribed node for node. -/
def DATE_PATTERNS : List RE :=
  [ rseq [rd12, .lit ' ', ralpha1, .lit ' ', rd4],
    rseq [ralpha1, .lit ' ', rd12, ropt (.lit ','), .lit ' ', rd4],
    rseq [rd12, .lit '/', rd12, .lit '/', rd4],
    rseq [rd4, .lit '-', rd12, .lit '-', rd12],
    rwords ["yesterday", "today", "this morning", "last night", "this evening"],
    rseq [rwords ["monday", "tuesday", "wednesday", "thursday", "friday",
                  "saturday", "sunday"],
          .lit ' ', rwords ["morning", "afternoon", "evening", "night"]],
    rseq [rwords ["early", "late", "mid"], .lit ' ', ralpha1],
    rseq [ralpha1, .lit ' ', rlit "of", .lit ' ', rd4] ]

/-- Python `extract_dates` (text_parser.py, lines 71-85): all matches of every
pattern in order; the first found is returned, falling back to
`datetime.now().strftime("%d %B %Y")`. -/
def extract_dates (now : DateTimeV) (text : String) : String :=
  let dates := DATE_PATTERNS.flatMap (fun p => findallStrs p text.toList)
  match dates with
  | d :: _ => d
  | [] => pad2 now.day ++ " " ++ monthName now.month ++ " " ++ fmtYear now.year

/-- Python `extract_locations` (text_parser.py, lines 88-105) with the spaCy model
unavailable (`SPACY_AVAILABLE = False`, the gazetteer-only default; the spec
requires identical core behavior with the capability absent).  The final
`list(set(locations))` is modelled as order-preserving dedup; the gazetteer
loop never appends a name twice, so dedup is the identity here, and the
theorems below only evaluate it where at most one name matches, where every
set iteration order agrees. -/
def extract_locations (text : String) : List String :=
  let tl : String := ⟨toLowerL text.toList⟩
  (GAZA_LOCATIONS.filter (fun loc => pyIn (⟨toLowerL loc.toList⟩ : String) tl)).dedup

/-- Pattern `(?:\s+people|\s+persons|\s+civilians|\s+children|\s+women|\s+men)` -/
def rnoun : RE :=
  raltL (["people", "persons", "civilians", "children", "women", "men"].map
    (fun w => .seq rspace1 (rlit w)))

def tp_death_patterns : List RE :=
  [ rseq [.grpDigits, ropt rnoun, rspace1, ropt (.seq (rlit "were") rspace1),
          rwords ["killed", "dead", "died", "death"]],
    rseq [rwords ["killed", "dead", "died", "death"],
          ropt (rseq [rspace1, rlit "toll", rspace1, rwords ["reaches", "reached"]]),
          rspace1, .grpDigits],
    rseq [rwords ["death", "killed"], rspace1, rwords ["toll", "count"],
          ropt (rseq [rspace1, rwords ["of", "at", "reached"]]),
          rspace1, .grpDigits] ]

def tp_injured_patterns : List RE :=
  [ rseq [.grpDigits, ropt rnoun, rspace1, ropt (.seq (rlit "were") rspace1),
          rwords ["injured", "wounded", "hurt"]],
    rseq [rwords ["injured", "wounded"],
          ropt (rseq [rspace1, rwords ["reaches", "reached"]]),
          rspace1, .grpDigits] ]

structure TPCasualties where
  deaths : Option Nat
  injured : Option Nat
  total : Option Nat
deriving DecidableEq, Repr

/-- Python `for pattern in patterns: match = re.search(...); if match: v = int(group(1)); break` -/
def firstPatternCap (pats : List RE) (s : List Char) : Option Nat :=
  match pats with
  | [] => none
  | p :: rest =>
    match firstCapNum p s with
    | some n => some n
    | none => firstPatternCap rest s

/-- Python `extract_casualties` (text_parser.py, lines 108-149). -/
def extract_casualties (text : String) : TPCasualties :=
  let deaths := firstPatternCap tp_death_patterns text.toList
  let injured := firstPatternCap tp_injured_patterns text.toList
  let total :=
    if deaths.isSome || injured.isSome then some (deaths.getD 0 + injured.getD 0)
    else none
  ⟨deaths, injured, total⟩

/-- Per-category score of `determine_incident_type`: one point for every
entry of the keyword list that occurs in the lowercased text (the `injuries`
list contains `"wounded"` twice, so its presence scores two points). -/
def scoreOf (keywords : List String) (text_lower : String) : Nat :=
  (keywords.filter (fun kw => pyIn kw text_lower)).length

/-- Python `max(items, key=score)`: the first item of maximal score. -/
def argmaxFirst (l : List (String × Nat)) : String :=
  match l with
  | [] => "general"
  | x :: xs => (xs.foldl (fun best y => if y.2 > best.2 then y else best) x).1

/-- Python `determine_incident_type` (text_parser.py, lines 152-167). -/
def determine_incident_type (text : String) : String :=
  let tl : String := ⟨toLowerL text.toList⟩
  let scores := INCIDENT_TYPES.map (fun c => (c.1, scoreOf c.2 tl))
  if scores.any (fun sc => sc.2 > 0) then argmaxFirst scores else "general"

/-- Python `str.count`: non-overlapping occurrences, scanning left to right. -/
def countOccurAux (needle : List Char) : Nat → List Char → Nat
  | 0, _ => 0
  | _ + 1, [] => 0
  | fuel + 1, c :: rest =>
    if prefixMatch needle (c :: rest) then
      1 + countOccurAux needle fuel ((c :: rest).drop (max 1 needle.length))
    else countOccurAux needle fuel rest

def countOccur (needle hay : List Char) : Nat :=
  countOccurAux needle (hay.length + 1) hay

/-- The classifier as claim C7 words it, for refinement comparison only:
score = total number of case-insensitive substring *occurrences* of the
category's keywords (the source instead scores one point per keyword that is
present at all, regardless of how often it occurs). -/
def classifierAsClaimed (text : String) : String :=
  let tl : List Char := toLowerL text.toList
  let scores := INCIDENT_TYPES.map
    (fun c => (c.1, (c.2.map (fun kw => countOccur kw.toList tl)).sum))
  if scores.any (fun sc => sc.2 > 0) then argmaxFirst scores else "general"

structure TPIncident where
  type : String
  description : String
  date : String
  location : Option String
  additional_locations : List String
  casualties : Option TPCasualties
deriving DecidableEq, Repr

/-- Python `extract_incidents_from_paragraph` (text_parser.py, lines 170-209). -/
def extract_incidents_from_paragraph (now : DateTimeV) (paragraph : String) :
    Option TPIncident :=
  if (pyStrip paragraph).length < 30 then none
  else
    let incident_type := determine_incident_type paragraph
    let keep :=
      if incident_type == "general" then
        INCIDENT_TYPES.any (fun c =>
          c.2.any (fun kw => pyIn kw (⟨toLowerL paragraph.toList⟩ : String)))
      else true
    if keep then
      let date := extract_dates now paragraph
      let locations := extract_locations paragraph
      let casualties := extract_casualties paragraph
      some
        { type := incident_type
          description := pyStrip paragraph
          date := date
          location := locations.head?
          additional_locations := if locations.length > 1 then locations.tail else []
          casualties := if casualties.total.isSome then some casualties else none }
    else none

/-- Python `split_into_meaningful_chunks` (text_parser.py, lines 212-222).
`sentTok` is NLTK's `sent_tokenize`, an external library modelled as an
oracle parameter. -/
def split_into_meaningful_chunks (sentTok : String → List String)
    (text : String) : List String :=
  let paragraphs := pySplitSub "\n\n" text
  if paragraphs.length ≤ 1 && text.length > 300 then sentTok text
  else paragraphs.filter (fun p => pyStrip p ≠ "")

/-- Python `extract_incidents_from_text` (text_parser.py, lines 225-247). -/
def extract_incidents_from_text (sentTok : String → List String)
    (now : DateTimeV) (text : String) : List TPIncident :=
  if text = "" || (pyStrip text).length < 50 then []
  else
    (split_into_meaningful_chunks sentTok text).filterMap
      (extract_incidents_from_paragraph now)

end Extr

end PalGeno

namespace PalGeno

namespace Gendata

/-! ### `parse_date_time` (daily_extractor.py, lines 268-323)

`datetime.strptime` is embedded directly from CPython's `_strptime`
directive grammar: `%Y` is exactly four digits; `%d`, `%m`, `%H`, `%M`, `%S`
are ordered digit alternations; `%B` is a full month name, matched
case-insensitively; a literal character matches itself case-insensitively and
whitespace in the format matches a whitespace run.  The regex is anchored at
the start, its preferred parse is taken, and any unconverted trailing data is
an error; the `datetime` constructor then validates the calendar day. -/

inductive FmtItem : Type where
  | Y : FmtItem
  | m : FmtItem
  | d : FmtItem
  | H : FmtItem
  | Mi : FmtItem
  | S : FmtItem
  | B : FmtItem
  | litc : Char → FmtItem
  | ws : FmtItem
deriving DecidableEq, Repr

/-- Partially filled `struct_time` (strptime defaults: 1900-01-01 00:00:00). -/
structure TM where
  y : Nat
  mo : Nat
  d : Nat
  h : Nat
  mi : Nat
  s : Nat
deriving DecidableEq, Repr

def digitVal (c : Char) : Nat := c.toNat - '0'.toNat

/-- One alternation branch of a two-digit directive. -/
def twoDigit (p1 p2 : Char → Bool) (s : List Char) : List (Nat × List Char) :=
  match s with
  | a :: b :: rest =>
    if p1 a && p2 b then [(digitVal a * 10 + digitVal b, rest)] else []
  | _ => []

/-- One alternation branch of a one-digit directive. -/
def oneDigit (p1 : Char → Bool) (s : List Char) : List (Nat × List Char) :=
  match s with
  | a :: rest => if p1 a then [(digitVal a, rest)] else []
  | _ => []

/-- Directive `%Y`: `\d\d\d\d`. -/
def pY (s : List Char) : List (Nat × List Char) :=
  match s with
  | a :: b :: c :: d :: rest =>
    if isAsciiDigit a && isAsciiDigit b && isAsciiDigit c && isAsciiDigit d then
      [(digitVal a * 1000 + digitVal b * 100 + digitVal c * 10 + digitVal d, rest)]
    else []
  | _ => []

/-- Directive `%m`: `1[0-2]|0[1-9]|[1-9]`. -/
def pm (s : List Char) : List (Nat × List Char) :=
  twoDigit (fun a => a == '1') (fun b => '0' ≤ b && b ≤ '2') s ++
  twoDigit (fun a => a == '0') (fun b => '1' ≤ b && b ≤ '9') s ++
  oneDigit (fun a => '1' ≤ a && a ≤ '9') s

/-- Directive `%d`: `3[01]|[12]\d|0[1-9]|[1-9]`. -/
def pd (s : List Char) : List (Nat × List Char) :=
  twoDigit (fun a => a == '3') (fun b => b == '0' || b == '1') s ++
  twoDigit (fun a => a == '1' || a == '2') isAsciiDigit s ++
  twoDigit (fun a => a == '0') (fun b => '1' ≤ b && b ≤ '9') s ++
  oneDigit (fun a => '1' ≤ a && a ≤ '9') s

/-- Directive `%H`: `2[0-3]|[0-1]\d|\d`. -/
def pH (s : List Char) : List (Nat × List Char) :=
  twoDigit (fun a => a == '2') (fun b => '0' ≤ b && b ≤ '3') s ++
  twoDigit (fun a => a == '0' || a == '1') isAsciiDigit s ++
  oneDigit isAsciiDigit s

/-- Directive `%M`: `[0-5]\d|\d`. -/
def pMi (s : List Char) : List (Nat × List Char) :=
  twoDigit (fun a => '0' ≤ a && a ≤ '5') isAsciiDigit s ++
  oneDigit isAsciiDigit s

/-- Directive `%S`: `6[0-1]|[0-5]\d|\d`. -/
def pS (s : List Char) : List (Nat × List Char) :=
  twoDigit (fun a => a == '6') (fun b => b == '0' || b == '1') s ++
  twoDigit (fun a => '0' ≤ a && a ≤ '5') isAsciiDigit s ++
  oneDigit isAsciiDigit s

/-- Directive `%B` alternation: month names tried longest first (CPython sorts them so;
no name is a prefix of another, so the order is immaterial), matched
case-insensitively; yields the month number. -/
def monthsByLength : List (String × Nat) :=
  [("September", 9), ("February", 2), ("November", 11), ("December", 12),
   ("January", 1), ("October", 10), ("August", 8), ("March", 3), ("April", 4),
   ("June", 6), ("July", 7), ("May", 5)]

def pB (s : List Char) : List (Nat × List Char) :=
  monthsByLength.flatMap (fun nm =>
    if prefixMatch (toLowerL nm.1.toList) (toLowerL s) then
      [(nm.2, s.drop nm.1.length)]
    else [])

/-- Whitespace run in the format (`\s+`), greedy with backtracking:
consume `k` spaces for `k` from the longest run down to 1. -/
def pWsRun (s : List Char) : List (Unit × List Char) :=
  let run := (s.takeWhile pyIsSpace).length
  (List.range run).map (fun k => ((), s.drop (run - k)))

def stepItem (it : FmtItem) (tm : TM) (s : List Char) : List (TM × List Char) :=
  match it with
  | .Y => (pY s).map (fun p => ({ tm with y := p.1 }, p.2))
  | .m => (pm s).map (fun p => ({ tm with mo := p.1 }, p.2))
  | .d => (pd s).map (fun p => ({ tm with d := p.1 }, p.2))
  | .H => (pH s).map (fun p => ({ tm with h := p.1 }, p.2))
  | .Mi => (pMi s).map (fun p => ({ tm with mi := p.1 }, p.2))
  | .S => (pS s).map (fun p => ({ tm with s := p.1 }, p.2))
  | .B => (pB s).map (fun p => ({ tm with mo := p.1 }, p.2))
  | .litc c =>
    match s with
    | [] => []
    | x :: xs => if x.toLower == c.toLower then [(tm, xs)] else []
  | .ws => (pWsRun s).map (fun p => (tm, p.2))

/-- All anchored parses of the format, in backtracking preference order. -/
def runFmt : List FmtItem → TM → List Char → List (TM × List Char)
  | [], tm, s => [(tm, s)]
  | it :: rest, tm, s =>
    (stepItem it tm s).flatMap (fun p => runFmt rest p.1 p.2)

def isLeap (y : Nat) : Bool := y % 4 == 0 && (y % 100 != 0 || y % 400 == 0)

def daysInMonth (y m : Nat) : Nat :=
  if m == 2 then (if isLeap y then 29 else 28)
  else if m == 4 || m == 6 || m == 9 || m == 11 then 30
  else 31

/-- The `datetime` constructor's validation of the parsed fields
(`MINYEAR <= year`, day within the month, second below 60). -/
def validTM (tm : TM) : Bool :=
  1 ≤ tm.y && 1 ≤ tm.mo && tm.mo ≤ 12 && 1 ≤ tm.d &&
  tm.d ≤ daysInMonth tm.y tm.mo && tm.h ≤ 23 && tm.mi ≤ 59 && tm.s ≤ 59

/-- Python `datetime.strptime(s, fmt)`: the regex's preferred anchored parse must
consume the whole string, then the fields must form a valid datetime. -/
def strptimeFmt (items : List FmtItem) (s : List Char) : Option TM :=
  match (runFmt items ⟨1900, 1, 1, 0, 0, 0⟩ s).head? with
  | some (tm, []) => if validTM tm then some tm else none
  | _ => none

/-- The `formats` list of `parse_date_time`, in order. -/
def fmtList : List (List FmtItem) :=
  [ [.Y, .litc '-', .m, .litc '-', .d, .litc 'T', .H, .litc ':', .Mi, .litc ':', .S],
    [.Y, .litc '-', .m, .litc '-', .d, .litc 'T', .H, .litc ':', .Mi, .litc ':', .S,
     .litc 'Z'],
    [.Y, .litc '-', .m, .litc '-', .d, .ws, .H, .litc ':', .Mi, .litc ':', .S],
    [.Y, .litc '-', .m, .litc '-', .d],
    [.d, .ws, .B, .ws, .Y],
    [.B, .ws, .d, .litc ',', .ws, .Y],
    [.d, .litc '/', .m, .litc '/', .Y],
    [.m, .litc '/', .d, .litc '/', .Y] ]

structure DateTimeOut where
  date : String
  time : String
deriving DecidableEq, Repr

/-- Python `now.strftime('%Y-%m-%d')` / `now.strftime('%H:%M:%S')`. -/
def nowDateTimeStr (now : DateTimeV) : DateTimeOut :=
  ⟨fmtYear now.year ++ "-" ++ pad2 now.month ++ "-" ++ pad2 now.day,
   pad2 now.hour ++ ":" ++ pad2 now.minute ++ ":" ++ pad2 now.second⟩

/-- The format loop: `'T' in fmt` truncates the candidate text to 19
characters; the first format that parses wins, remembering whether the
format carries `%H` (which decides the rendered time). -/
def tryFormats : List (List FmtItem) → List Char → Option (TM × Bool)
  | [], _ => none
  | f :: rest, date_text =>
    let test_text := if f.contains (FmtItem.litc 'T') then date_text.take 19
                     else date_text
    match strptimeFmt f test_text with
    | some tm => some (tm, f.contains FmtItem.H)
    | none => tryFormats rest date_text

/-- Embedding of `GazaCrisisExtractor.parse_date_time` (daily_extractor.py, lines 268-323). -/
def parse_date_time (now : DateTimeV) (date_text : String) : DateTimeOut :=
  if date_text = "" then nowDateTimeStr now
  else
    let stripped := pyStrip date_text
    match tryFormats fmtList stripped.toList with
    | some (tm, hasH) =>
      ⟨fmtYear tm.y ++ "-" ++ pad2 tm.mo ++ "-" ++ pad2 tm.d,
       if hasH then pad2 tm.h ++ ":" ++ pad2 tm.mi ++ ":" ++ pad2 tm.s
       else "12:00:00"⟩
    | none => nowDateTimeStr now

/-! ### `update_main_csv` (daily_extractor.py, lines 566-597)

The CSV file contents are modelled as the list of rows; reading the file,
collecting known ids and appending the genuinely new rows is the pure core
of the function (file I/O and the final `save_to_csv` write are external). -/

structure Row where
  id : String
  fields : List (String × String)
deriving DecidableEq, Repr

/-- The `for data in new_data` loop: append rows whose id is unseen, growing
the id set and the new-entry counter. -/
def mergeLoop : List Row → List Row → List String → Nat → List Row × Nat
  | [], rows, _, count => (rows, count)
  | d :: rest, rows, ids, count =>
    if ids.contains d.id then mergeLoop rest rows ids count
    else mergeLoop rest (rows ++ [d]) (ids ++ [d.id]) (count + 1)

def update_main_csv (existing new_data : List Row) : List Row × Nat :=
  mergeLoop new_data existing (existing.map (fun r => r.id)) 0

/-! ### The casualty fields of an article record (claim C10) -/

structure ArticleCasualtyFields where
  casualties_affected : Nat
  casualties_critical : Nat
  casualties_deaths : Nat
  casualties_injured : Nat
  casualties_hospitalized : Nat
deriving DecidableEq, Repr

/-- The casualty keys of the freshly initialized `data` dict in
`parse_aljazeera_article` (daily_extractor.py, lines 113-137): all zero. -/
def initArticleCasualtyFields : ArticleCasualtyFields := ⟨0, 0, 0, 0, 0⟩

/-- Python `data.update(casualties)` (line 223): the extractor result overwrites all
five casualty keys; no other statement of `parse_aljazeera_article` assigns
to them. -/
def applyCasualties (d : ArticleCasualtyFields) (c : Casualties) :
    ArticleCasualtyFields :=
  match d with
  | _ => ⟨c.affected, c.critical, c.deaths, c.injured, c.hospitalized⟩

end Gendata

namespace UserBin

/-! ### `user/bin.py` -/

/-- Embedding of `GazaCrisisScraper.extract_relevant_paragraphs` (bin.py, lines 232-242);
`max_chars` defaults to 800 at the digest-mode call sites. -/
def extract_relevant_paragraphs (text : String) (keywords : List String)
    (max_chars : Nat) : String :=
  let paragraphs := pySplitChar '\n' text
  let relevant :=
    (paragraphs.filter (fun para =>
      keywords.any (fun kw =>
        pyIn (⟨toLowerL kw.toList⟩ : String) (⟨toLowerL para.toList⟩ : String)))).map
      pyStrip
  let result := pyJoin " " relevant
  if result.length > max_chars then (⟨result.toList.take max_chars⟩ : String) ++ "..."
  else result

/-- A scraped incident; only `title` matters to the duplicate filter, the
payload stands for the remaining record fields. -/
structure DIncident where
  title : String
  payload : String
deriving DecidableEq, Repr

/-- The word set of a lowercased title, as an insertion-ordered list without
duplicates (cardinalities of these lists are exactly Python set sizes). -/
def wordList (t : String) : List String := (pySplitWs t).dedup

/-- Python `len(title_words & seen_words) / len(title_words | seen_words) > 0.7`.
Python divides floats and compares against the literal `0.7`; for
cardinalities below 10^15 that comparison coincides with the exact rational
test `10*i > 7*u` (the literal rounds to a double strictly below 7/10, and a
quotient equal to 7/10 rounds to that same double).  Two empty word sets
raise `ZeroDivisionError`. -/
def jaccardGT (tw sw : List String) : Except String Bool :=
  let i := (tw.filter (fun w => sw.contains w)).length
  let u := (tw ++ sw.filter (fun w => !tw.contains w)).length
  if u == 0 then .error "ZeroDivisionError" else .ok (10 * i > 7 * u)

/-- The inner `for seen_title in seen_titles` loop.  (Python iterates a set
in unspecified order; the outcome is order-independent: a raising comparison
requires the incoming word set to be empty, in which case no other
comparison can exceed 0.7 and break first.) -/
def anyDuplicate (tw : List String) : List String → Except String Bool
  | [] => .ok false
  | st :: rest =>
    match jaccardGT tw (wordList st) with
    | .error e => .error e
    | .ok true => .ok true
    | .ok false => anyDuplicate tw rest

/-- The outer loop of `remove_duplicates`, carrying retained incidents and
the set of seen (lowercased) titles. -/
def removeDupLoop : List DIncident → List DIncident → List String →
    Except String (List DIncident)
  | [], acc, _ => .ok acc
  | inc :: rest, acc, seen =>
    match anyDuplicate (wordList (⟨toLowerL inc.title.toList⟩ : String)) seen with
    | .error e => .error e
    | .ok true => removeDupLoop rest acc seen
    | .ok false =>
      removeDupLoop rest (acc ++ [inc])
        (if seen.contains (⟨toLowerL inc.title.toList⟩ : String) then seen
         else seen ++ [(⟨toLowerL inc.title.toList⟩ : String)])

/-- Embedding of `GazaCrisisScraper.remove_duplicates` (bin.py, lines 349-369). -/
def remove_duplicates (incidents : List DIncident) :
    Except String (List DIncident) :=
  removeDupLoop incidents [] []

end UserBin

end PalGeno

namespace PalGeno

namespace Extr

/-! ### `incident-extractor/extractor/url_parser.py`

The network fetch plus BeautifulSoup content location (external libraries;
the spec treats them as "a fetch returns raw HTML/text for a given URL") is
modelled by an oracle `http : String → HttpResult`: on success it delivers
the located article body and metadata, otherwise the typed exceptions
`extract_incidents_from_url` catches.  The page is modelled without
qualifying images, so the `if images:` enhancement adds nothing. -/

/-- The located parts of a fetched page (`extract_main_content` /
`extract_article_metadata` output). -/
structure Located where
  content : String
  title : Option String
  date : Option String
deriving DecidableEq, Repr

inductive HttpResult : Type where
  /-- the GET succeeded and content location yielded this page -/
  | ok : Located → HttpResult
  /-- Python `requests.exceptions.Timeout` -/
  | timeout : HttpResult
  /-- Python `requests.exceptions.HTTPError` (rendered message) -/
  | httpError : String → HttpResult
  /-- any other exception (rendered message) -/
  | exc : String → HttpResult
deriving DecidableEq, Repr

/-- Python `urlparse(url).netloc`. -/
def netloc (url : String) : String :=
  match pySplitSub "://" url with
  | _ :: rest :: _ => (pySplitChar '/' rest).headD ""
  | _ => ""

/-- An incident dict after the metadata-enhancement loop of
`extract_incidents_from_url`. -/
structure UrlIncident where
  base : TPIncident
  source : String
  article_url : String
  article_title : Option String
  article_date : Option String
deriving DecidableEq, Repr

/-- An element of the list `extract_incidents_from_url` returns: either an
incident dict or the sentinel error dict `{error, description}`. -/
inductive UrlEntry : Type where
  | inc : UrlIncident → UrlEntry
  | errorRec : (error : String) → (description : String) → UrlEntry
deriving DecidableEq, Repr

def isErrEntry : UrlEntry → Bool
  | .errorRec _ _ => true
  | .inc _ => false

/-- Python `extract_incidents_from_url` (url_parser.py, lines 171-231). -/
def extract_incidents_from_url (http : String → HttpResult)
    (sentTok : String → List String) (now : DateTimeV) (url : String) :
    List UrlEntry :=
  match http url with
  | .ok page =>
    (extract_incidents_from_text sentTok now page.content).map
      (fun i => .inc ⟨i, netloc url, url, page.title, page.date⟩)
  | .timeout =>
    [.errorRec "Request timed out"
      ("The request to " ++ url ++ " took too long to complete")]
  | .httpError e =>
    [.errorRec ("HTTP Error: " ++ e)
      ("The server returned an error response: " ++ e)]
  | .exc e => [.errorRec e ("Failed to process URL: " ++ url)]

structure UrlError where
  url : String
  error : String
deriving DecidableEq, Repr

structure BatchStats where
  total_urls : Nat
  successful_urls : Nat
  failed_urls : Nat
  total_incidents : Nat
deriving DecidableEq, Repr

structure BatchResult where
  incidents : List UrlEntry
  errors : List UrlError
  stats : BatchStats
deriving DecidableEq, Repr

/-- The `for i, url in enumerate(urls)` loop of
`extract_incidents_from_multiple_urls`: an entry list whose first element is
an error dict contributes an error record, every other list is appended to
the accumulated incidents.  `f` is the per-URL extraction (the embedded
`extract_incidents_from_url` is total, so the enclosing `except` arm is
unreachable). -/
def batchLoop (f : String → List UrlEntry) :
    List String → List UrlEntry → List UrlError →
    List UrlEntry × List UrlError
  | [], inc, errs => (inc, errs)
  | u :: rest, inc, errs =>
    match (f u).head? with
    | some (.errorRec e _) => batchLoop f rest inc (errs ++ [⟨u, e⟩])
    | _ => batchLoop f rest (inc ++ f u) errs

/-- Python `extract_incidents_from_multiple_urls` (url_parser.py, lines 234-269). -/
def extract_incidents_from_multiple_urls (f : String → List UrlEntry)
    (urls : List String) : BatchResult :=
  let r := batchLoop f urls [] []
  ⟨r.1, r.2,
   ⟨urls.length, urls.length - r.2.length, r.2.length, r.1.length⟩⟩

end Extr

end PalGeno

namespace PalGeno

/-! ### Concrete inputs used by the theorems below -/

instance {ε α : Type} [DecidableEq ε] [DecidableEq α] :
    DecidableEq (Except ε α) := fun a b =>
  match a, b with
  | .error e1, .error e2 =>
    if h : e1 = e2 then isTrue (by rw [h])
    else isFalse (by intro hc; cases hc; exact h rfl)
  | .ok v1, .ok v2 =>
    if h : v1 = v2 then isTrue (by rw [h])
    else isFalse (by intro hc; cases hc; exact h rfl)
  | .error _, .ok _ => isFalse (by intro hc; cases hc)
  | .ok _, .error _ => isFalse (by intro hc; cases hc)

/-- The spec's casualty-extractor test sentence. -/
def casualtyTestText : String :=
  "At least 25 people were killed and 40 injured in the strike"

/-- The spec's location-extractor test sentence. -/
def locationTestText : String := "Heavy shelling reported in Khan Younis overnight"

/-- A fixed processing instant. -/
def now0 : DateTimeV := ⟨2026, 10, 12, 9, 30, 5⟩

/-- A text whose first date-pattern hit is a "D Month YYYY" form (long
enough for the minimum-length gates of the text pipeline). -/
def dateTestText : String :=
  "on 25 December 2023 dozens of people were killed in Rafah city"

/-- A text where one keyword occurs three times: presence-scoring and
occurrence-scoring classify it differently. -/
def classifierTestText : String := "killed killed killed wounded hurt"

/-- A qualifying paragraph mentioning no gazetteer place name at all. -/
def noLocationText : String :=
  "14 people were killed in the strike yesterday morning near the border zone"

/-- Digest-mode text longer than the 800-character cap (267 copies of
`"aid"`, 801 characters, a single relevant line). -/
def digestLongText : String := pyJoin "" (List.replicate 267 "aid")

/-- Two incidents whose titles have Jaccard similarity 6/7 > 0.7. -/
def dupA : UserBin.DIncident := ⟨"Dozens killed in Gaza City strike", "first"⟩

def dupB : UserBin.DIncident := ⟨"Dozens killed in Gaza City air strike", "second"⟩

/-- Two incidents with whitespace-only titles (both word sets empty). -/
def emptyTitleA : UserBin.DIncident := ⟨"", "first"⟩

def emptyTitleB : UserBin.DIncident := ⟨" ", "second"⟩

/-- Batch fixture: three URLs, the second times out. -/
def urlOne : String := "https://a.com/one"

def urlTwo : String := "https://b.com/two"

def urlThree : String := "https://c.com/three"

def pageOneText : String := "12 people were killed in an airstrike on Gaza City today."

def pageThreeText : String := "30 people were wounded by shelling in Khan Younis today."

/-- The fetch oracle for the batch fixture. -/
def http0 : String → Extr.HttpResult := fun u =>
  if u == urlOne then .ok ⟨pageOneText, some "Article one", some "2026-10-11"⟩
  else if u == urlTwo then .timeout
  else if u == urlThree then .ok ⟨pageThreeText, none, none⟩
  else .exc "unknown URL"

/-- Sentence tokenizer oracle (never consulted by the fixture texts, which
are single short paragraphs). -/
def sentTok0 : String → List String := fun s => [s]

/-- Canonical `YYYY-MM-DD`: four digits, dash, two digits, dash, two digits. -/
def isCanonicalDateStr (s : String) : Bool :=
  match s.toList with
  | [a, b, c, d, h1, e, f, h2, g, h] =>
    isAsciiDigit a && isAsciiDigit b && isAsciiDigit c && isAsciiDigit d &&
    h1 == '-' && isAsciiDigit e && isAsciiDigit f && h2 == '-' &&
    isAsciiDigit g && isAsciiDigit h
  | _ => false

/-- Well-formedness of a processing instant (any real `datetime.now()`
satisfies this). -/
def WFNow (n : DateTimeV) : Prop :=
  1 ≤ n.year ∧ 1 ≤ n.month ∧ n.month ≤ 12 ∧ 1 ≤ n.day ∧ n.day ≤ 31

instance (n : DateTimeV) : Decidable (WFNow n) := by
  unfold WFNow; infer_instance

/-- Which patterns are guaranteed to consume at least one character on any
match: their first obligatory atom is consuming. -/
def consumesFirst : RE → Bool
  | .eps => false
  | .lit _ => true
  | .cls _ => true
  | .seq r1 _ => consumesFirst r1
  | .alt r1 r2 => consumesFirst r1 && consumesFirst r2
  | .starL _ => false
  | .starG _ => false
  | .grpDigits => true

/-- Reference form of the merge loop: the new rows that survive against a
set of known ids (first occurrence of each fresh id wins). -/
def freshFilter (ids : List String) : List Gendata.Row → List Gendata.Row
  | [] => []
  | d :: rest =>
    if ids.contains d.id then freshFilter ids rest
    else d :: freshFilter (ids ++ [d.id]) rest

/-- The comparison inside the duplicate filter, as a total Boolean:
Jaccard similarity of the word sets strictly above 7/10. -/
def dedupJac (tw : List String) (st : String) : Bool :=
  10 * (tw.filter (fun w => (UserBin.wordList st).contains w)).length >
    7 * (tw ++ (UserBin.wordList st).filter (fun w => !tw.contains w)).length

/-- Total form of the duplicate filter, defined only where no division by
zero occurs: keep an incident iff no already-retained title's word set has
Jaccard similarity above 7/10 with its title's word set. -/
def dedupTotal : List UserBin.DIncident → List String → List UserBin.DIncident
  | [], _ => []
  | inc :: rest, seen =>
    if seen.any (dedupJac (UserBin.wordList (⟨toLowerL inc.title.toList⟩ : String))) then
      dedupTotal rest seen
    else
      inc :: dedupTotal rest
        (if seen.contains (⟨toLowerL inc.title.toList⟩ : String) then seen
         else seen ++ [(⟨toLowerL inc.title.toList⟩ : String)])

/-- Per-URL error record expected by the batch characterization. -/
def urlErrOf (f : String → List Extr.UrlEntry) (u : String) :
    List Extr.UrlError :=
  match (f u).head? with
  | some (.errorRec e _) => [⟨u, e⟩]
  | _ => []

/-- Per-URL incident contribution expected by the batch characterization. -/
def urlIncOf (f : String → List Extr.UrlEntry) (u : String) :
    List Extr.UrlEntry :=
  match (f u).head? with
  | some (.errorRec _ _) => []
  | _ => f u

end PalGeno

namespace PalGeno

/-! ## Generic lemmas about maxima of lists -/

theorem init_le_foldl_max (l : List Nat) : ∀ a : Nat, a ≤ l.foldl max a := by
  induction l with
  | nil => intro a; exact Nat.le_refl a
  | cons x xs ih =>
    intro a
    calc a ≤ max a x := Nat.le_max_left a x
      _ ≤ xs.foldl max (max a x) := ih (max a x)

theorem le_foldl_max (l : List Nat) : ∀ a n : Nat, n ∈ l → n ≤ l.foldl max a := by
  induction l with
  | nil => intro a n h; cases h
  | cons x xs ih =>
    intro a n h
    rcases List.mem_cons.mp h with rfl | h2
    · calc n ≤ max a n := Nat.le_max_right a n
        _ ≤ xs.foldl max (max a n) := init_le_foldl_max xs (max a n)
    · exact ih (max a x) n h2

theorem foldl_max_mem (l : List Nat) :
    ∀ a : Nat, l.foldl max a = a ∨ l.foldl max a ∈ l := by
  induction l with
  | nil => intro a; left; rfl
  | cons x xs ih =>
    intro a
    rw [List.foldl_cons]
    rcases ih (max a x) with h | h
    · rcases max_choice a x with hm | hm
      · left; rw [h, hm]
      · right; rw [h, hm]; exact List.mem_cons_self x xs
    · right; exact List.mem_cons_of_mem x h

theorem le_maxList {l : List Nat} {n : Nat} (h : n ∈ l) : n ≤ maxList l :=
  le_foldl_max l 0 n h

theorem foldl_max_split (l : List Nat) : ∀ a : Nat, l.foldl max a = max a (l.foldl max 0) := by
  induction l with
  | nil => intro a; simp
  | cons x xs ih =>
    intro a
    rw [List.foldl_cons, ih (max a x), List.foldl_cons, ih (max 0 x)]
    rw [Nat.zero_max, Nat.max_assoc]

theorem maxList_cons (x : Nat) (xs : List Nat) : maxList (x :: xs) = max x (maxList xs) := by
  simp only [maxList, List.foldl_cons, Nat.zero_max]
  exact foldl_max_split xs x

theorem maxList_mem_of_ne_nil : ∀ l : List Nat, l ≠ [] → maxList l ∈ l := by
  intro l
  induction l with
  | nil => intro h; exact absurd rfl h
  | cons x xs ih =>
    intro _
    rw [maxList_cons]
    cases xs with
    | nil =>
      rw [show maxList ([] : List Nat) = 0 from rfl, Nat.max_zero]
      exact List.mem_cons_self x []
    | cons y ys =>
      rcases max_choice x (maxList (y :: ys)) with hm | hm
      · rw [hm]; exact List.mem_cons_self _ _
      · rw [hm]
        exact List.mem_cons_of_mem x (ih (List.cons_ne_nil y ys))

/-! ## Lemmas about the per-category maximum of the daily casualty extractor -/

theorem foldMaxPatterns_cons (p : RE) (ps : List RE) (tl : List Char) (init : Nat) :
    Gendata.foldMaxPatterns (p :: ps) tl init =
      Gendata.foldMaxPatterns ps tl
        (if (findallNums p tl).isEmpty then init
         else max init (maxList (findallNums p tl))) := by
  rfl

theorem init_le_foldMaxPatterns (pats : List RE) (tl : List Char) :
    ∀ init : Nat, init ≤ Gendata.foldMaxPatterns pats tl init := by
  induction pats with
  | nil => intro init; exact Nat.le_refl init
  | cons p ps ih =>
    intro init
    rw [foldMaxPatterns_cons]
    split
    · exact ih init
    · exact le_trans (Nat.le_max_left _ _) (ih _)

theorem foldMaxPatterns_bound (pats : List RE) (tl : List Char) :
    ∀ init : Nat, ∀ p ∈ pats, ∀ n ∈ findallNums p tl,
      n ≤ Gendata.foldMaxPatterns pats tl init := by
  induction pats with
  | nil => intro _ p h; cases h
  | cons q ps ih =>
    intro init p hp n hn
    rw [foldMaxPatterns_cons]
    rcases List.mem_cons.mp hp with rfl | hp2
    · have hne : (findallNums p tl).isEmpty = false := by
        cases h : findallNums p tl with
        | nil => rw [h] at hn; cases hn
        | cons a as => rfl
      rw [hne]
      simp only [Bool.false_eq_true, if_false]
      exact le_trans (le_trans (le_maxList hn) (Nat.le_max_right init _))
        (init_le_foldMaxPatterns ps tl _)
    · exact ih _ p hp2 n hn

theorem foldMaxPatterns_attain (pats : List RE) (tl : List Char) :
    ∀ init : Nat, Gendata.foldMaxPatterns pats tl init = init ∨
      ∃ p ∈ pats, Gendata.foldMaxPatterns pats tl init ∈ findallNums p tl := by
  induction pats with
  | nil => intro init; left; rfl
  | cons q ps ih =>
    intro init
    rw [foldMaxPatterns_cons]
    by_cases hq : (findallNums q tl).isEmpty
    · rw [hq]
      simp only [if_true]
      rcases ih init with h | ⟨p, hp, hm⟩
      · left; exact h
      · right; exact ⟨p, List.mem_cons_of_mem q hp, hm⟩
    · rw [Bool.not_eq_true] at hq
      rw [hq]
      simp only [Bool.false_eq_true, if_false]
      rcases ih (max init (maxList (findallNums q tl))) with h | ⟨p, hp, hm⟩
      · rw [h]
        rcases max_choice init (maxList (findallNums q tl)) with hm | hm
        · left; exact hm
        · right
          refine ⟨q, List.mem_cons_self q ps, ?_⟩
          rw [hm]
          apply maxList_mem_of_ne_nil
          intro hnil
          rw [hnil] at hq
          simp at hq
      · right; exact ⟨p, List.mem_cons_of_mem q hp, hm⟩

theorem categoryValue_mono (pats : List RE) (tl : List Char) (prev : Nat) :
    prev ≤ Gendata.categoryValue pats tl prev := by
  unfold Gendata.categoryValue
  dsimp only
  split
  · exact Nat.le_max_left _ _
  · exact Nat.le_refl prev

theorem categoryValue_bound (pats : List RE) (tl : List Char) (prev : Nat) :
    ∀ p ∈ pats, ∀ n ∈ findallNums p tl, n ≤ Gendata.categoryValue pats tl prev := by
  intro p hp n hn
  have hb : n ≤ Gendata.foldMaxPatterns pats tl 0 := foldMaxPatterns_bound pats tl 0 p hp n hn
  unfold Gendata.categoryValue
  dsimp only
  split
  · exact le_trans hb (Nat.le_max_right _ _)
  · next h =>
      have : Gendata.foldMaxPatterns pats tl 0 = 0 := by omega
      omega

theorem categoryValue_attain (pats : List RE) (tl : List Char) (prev : Nat) :
    Gendata.categoryValue pats tl prev = prev ∨
      ∃ p ∈ pats, Gendata.categoryValue pats tl prev ∈ findallNums p tl := by
  unfold Gendata.categoryValue
  dsimp only
  split
  · next hpos =>
      rcases max_choice prev (Gendata.foldMaxPatterns pats tl 0) with hm | hm
      · left; exact hm
      · rcases foldMaxPatterns_attain pats tl 0 with h0 | ⟨p, hp, hmem⟩
        · omega
        · right; exact ⟨p, hp, by rw [hm]; exact hmem⟩
  · left; rfl

end PalGeno

namespace PalGeno

/-! ## Shape of the daily casualty record -/

theorem ifAffected (d i h : Nat) :
    (if d > 0 && max d (max i h) == 0 then d else max d (max i h)) =
      max d (max i h) := by
  split
  · next hc =>
      simp only [Bool.and_eq_true, decide_eq_true_eq, beq_iff_eq] at hc
      have h1 := Nat.le_max_left d (max i h)
      omega
  · rfl

theorem extract_casualties_deaths_eq (text : String) :
    (Gendata.extract_casualties_from_text text).deaths =
      Gendata.categoryValue Gendata.death_patterns (toLowerL text.toList)
        (Gendata.foldMaxPatterns Gendata.journalist_patterns
          (toLowerL text.toList) 0) := by
  unfold Gendata.extract_casualties_from_text
  by_cases h : text = ""
  · rw [if_pos h, h]
    decide
  · rw [if_neg h]

theorem extract_casualties_injured_eq (text : String) :
    (Gendata.extract_casualties_from_text text).injured =
      Gendata.categoryValue Gendata.injured_patterns (toLowerL text.toList) 0 := by
  unfold Gendata.extract_casualties_from_text
  by_cases h : text = ""
  · rw [if_pos h, h]
    decide
  · rw [if_neg h]

theorem extract_casualties_hospitalized_eq (text : String) :
    (Gendata.extract_casualties_from_text text).hospitalized =
      Gendata.categoryValue Gendata.hospitalized_patterns (toLowerL text.toList) 0 := by
  unfold Gendata.extract_casualties_from_text
  by_cases h : text = ""
  · rw [if_pos h, h]
    decide
  · rw [if_neg h]

theorem extract_casualties_shape (text : String) :
    ∃ d i h, Gendata.extract_casualties_from_text text =
      ⟨max d (max i h), 0, d, i, h⟩ := by
  unfold Gendata.extract_casualties_from_text
  split
  · exact ⟨0, 0, 0, rfl⟩
  · dsimp only
    exact ⟨_, _, _, by rw [ifAffected]⟩

end PalGeno

namespace PalGeno

/-! ## Claims C1, C2, C10 -/

/-- Claim C2: for every input text, the casualty record of
`extract_casualties_from_text` satisfies
`affected = max(deaths, injured, hospitalized)`, hence `affected` bounds
each individual count, and positive deaths force positive affected. -/
theorem claim_C2 (text : String) :
    (Gendata.extract_casualties_from_text text).affected =
      max (Gendata.extract_casualties_from_text text).deaths
        (max (Gendata.extract_casualties_from_text text).injured
          (Gendata.extract_casualties_from_text text).hospitalized) ∧
    (Gendata.extract_casualties_from_text text).deaths ≤
      (Gendata.extract_casualties_from_text text).affected ∧
    (Gendata.extract_casualties_from_text text).injured ≤
      (Gendata.extract_casualties_from_text text).affected ∧
    (Gendata.extract_casualties_from_text text).hospitalized ≤
      (Gendata.extract_casualties_from_text text).affected ∧
    (0 < (Gendata.extract_casualties_from_text text).deaths →
      0 < (Gendata.extract_casualties_from_text text).affected) := by
  obtain ⟨d, i, h, heq⟩ := extract_casualties_shape text
  rw [heq]
  refine ⟨rfl, Nat.le_max_left _ _,
    le_trans (Nat.le_max_left _ _) (Nat.le_max_right _ _),
    le_trans (Nat.le_max_right _ _) (Nat.le_max_right _ _), ?_⟩
  intro hd
  exact lt_of_lt_of_le hd (Nat.le_max_left _ _)

/-- Witness for C2 at the concrete text `"3 killed"`: deaths is positive
there, and applying the theorem discharges the implication. -/
theorem claim_C2_witness :
    0 < (Gendata.extract_casualties_from_text "3 killed").deaths ∧
    0 < (Gendata.extract_casualties_from_text "3 killed").affected := by
  refine ⟨by decide, ?_⟩
  exact (claim_C2 "3 killed").2.2.2.2 (by decide)

/-- Claim C10: every article record starts with `casualties_critical = 0`
and the casualty-extractor update keeps it 0 on every input text, so every
persisted article-mode record carries a zero critical count. -/
theorem claim_C10 :
    Gendata.initArticleCasualtyFields.casualties_critical = 0 ∧
    ∀ text : String,
      (Gendata.applyCasualties Gendata.initArticleCasualtyFields
        (Gendata.extract_casualties_from_text text)).casualties_critical = 0 := by
  refine ⟨rfl, ?_⟩
  intro text
  obtain ⟨d, i, h, heq⟩ := extract_casualties_shape text
  rw [Gendata.applyCasualties, heq]

/-- Claim C1 (amended): for every text and every casualty category, the
daily extractor's value is the maximum number captured across all of that
category's matching patterns (deaths also folds in the journalist patterns),
never a sum: the value bounds every captured number and is itself one of
the captured numbers (or 0 when nothing matched).  On the spec's test text
it returns `deaths = 40`, `injured = 25`, `affected = 40` (the reverse
pattern `killed ... (\d+)` captures the 40, and the lazy forward pattern
`(\d+).*?injured` captures the 25). -/
theorem claim_C1_amended :
    (∀ text : String,
      (∀ p ∈ Gendata.death_patterns ++ Gendata.journalist_patterns,
        ∀ n ∈ findallNums p (toLowerL text.toList),
          n ≤ (Gendata.extract_casualties_from_text text).deaths) ∧
      (∀ p ∈ Gendata.injured_patterns,
        ∀ n ∈ findallNums p (toLowerL text.toList),
          n ≤ (Gendata.extract_casualties_from_text text).injured) ∧
      (∀ p ∈ Gendata.hospitalized_patterns,
        ∀ n ∈ findallNums p (toLowerL text.toList),
          n ≤ (Gendata.extract_casualties_from_text text).hospitalized) ∧
      ((Gendata.extract_casualties_from_text text).deaths = 0 ∨
        ∃ p ∈ Gendata.death_patterns ++ Gendata.journalist_patterns,
          (Gendata.extract_casualties_from_text text).deaths ∈
            findallNums p (toLowerL text.toList)) ∧
      ((Gendata.extract_casualties_from_text text).injured = 0 ∨
        ∃ p ∈ Gendata.injured_patterns,
          (Gendata.extract_casualties_from_text text).injured ∈
            findallNums p (toLowerL text.toList)) ∧
      ((Gendata.extract_casualties_from_text text).hospitalized = 0 ∨
        ∃ p ∈ Gendata.hospitalized_patterns,
          (Gendata.extract_casualties_from_text text).hospitalized ∈
            findallNums p (toLowerL text.toList))) ∧
    Gendata.extract_casualties_from_text casualtyTestText =
      ⟨40, 0, 40, 25, 0⟩ := by
  constructor
  · intro text
    set tl := toLowerL text.toList with htl
    refine ⟨?_, ?_, ?_, ?_, ?_, ?_⟩
    · intro p hp n hn
      rw [extract_casualties_deaths_eq text, ← htl]
      rcases List.mem_append.mp hp with hd | hj
      · exact categoryValue_bound _ tl _ p hd n hn
      · exact le_trans (foldMaxPatterns_bound _ tl 0 p hj n hn)
          (categoryValue_mono _ tl _)
    · intro p hp n hn
      rw [extract_casualties_injured_eq text, ← htl]
      exact categoryValue_bound _ tl _ p hp n hn
    · intro p hp n hn
      rw [extract_casualties_hospitalized_eq text, ← htl]
      exact categoryValue_bound _ tl _ p hp n hn
    · rw [extract_casualties_deaths_eq text, ← htl]
      rcases categoryValue_attain Gendata.death_patterns tl
          (Gendata.foldMaxPatterns Gendata.journalist_patterns tl 0) with h | ⟨p, hp, hm⟩
      · rw [h]
        rcases foldMaxPatterns_attain Gendata.journalist_patterns tl 0 with h0 | ⟨p, hp, hm⟩
        · left; exact h0
        · right; exact ⟨p, List.mem_append_right _ hp, hm⟩
      · right; exact ⟨p, List.mem_append_left _ hp, hm⟩
    · rw [extract_casualties_injured_eq text, ← htl]
      rcases categoryValue_attain Gendata.injured_patterns tl 0 with h | ⟨p, hp, hm⟩
      · left; exact h
      · right; exact ⟨p, hp, hm⟩
    · rw [extract_casualties_hospitalized_eq text, ← htl]
      rcases categoryValue_attain Gendata.hospitalized_patterns tl 0 with h | ⟨p, hp, hm⟩
      · left; exact h
      · right; exact ⟨p, hp, hm⟩
  · decide

/-- Witness for C1 (amended) at the spec's test text: the first death
pattern captures 25 there, and applying the theorem bounds it by the
extracted deaths figure. -/
theorem claim_C1_amended_witness :
    25 ≤ (Gendata.extract_casualties_from_text casualtyTestText).deaths := by
  have hm : rseq [.grpDigits, rlazy, Gendata.kwDeath] ∈
      Gendata.death_patterns ++ Gendata.journalist_patterns :=
    List.mem_append_left _ (List.mem_cons_self _ _)
  have hn : 25 ∈ findallNums (rseq [.grpDigits, rlazy, Gendata.kwDeath])
      (toLowerL casualtyTestText.toList) := by decide
  exact (claim_C1_amended.1 casualtyTestText).1 _ hm 25 hn

/-- Counterexample for C1 as stated: on
`"At least 25 people were killed and 40 injured in the strike"` the daily
extractor returns `deaths = 40` and `injured = 25`, not the claimed
`deaths = 25, injured = 40` (the reverse death pattern
`(?:killed|...).*?(\d+)` captures the 40 after "killed and", and the lazy
injured pattern consumes up to the first "injured", capturing 25). -/
theorem claim_C1_counterexample :
    Gendata.extract_casualties_from_text casualtyTestText =
      ⟨40, 0, 40, 25, 0⟩ ∧
    ¬ ((Gendata.extract_casualties_from_text casualtyTestText).deaths = 25 ∧
       (Gendata.extract_casualties_from_text casualtyTestText).injured = 40) := by
  have h : Gendata.extract_casualties_from_text casualtyTestText =
      ⟨40, 0, 40, 25, 0⟩ := by decide
  refine ⟨h, ?_⟩
  rw [h]
  intro hc
  exact absurd hc.1 (by decide)

end PalGeno

namespace PalGeno

/-! ## Claim C8 (location extractor) -/

theorem firstLocation_cons (x : String) (xs : List String) (text : String) :
    Gendata.firstLocation (x :: xs) text =
      if pyIn (⟨toLowerL x.toList⟩ : String) text then some x
      else Gendata.firstLocation xs text := rfl

theorem extract_location_eq (title description : String) :
    Gendata.extract_location title description =
      match Gendata.firstLocation Gendata.gaza_locations
        (⟨toLowerL (title ++ " " ++ description).toList⟩ : String) with
      | some l => l
      | none => "Gaza" := rfl

theorem firstLocation_spec (text : String) : ∀ locs : List String,
    (Gendata.firstLocation locs text = none ∧
      ∀ l ∈ locs, pyIn (⟨toLowerL l.toList⟩ : String) text = false) ∨
    (∃ pre l post, locs = pre ++ l :: post ∧
      Gendata.firstLocation locs text = some l ∧
      pyIn (⟨toLowerL l.toList⟩ : String) text = true ∧
      ∀ q ∈ pre, pyIn (⟨toLowerL q.toList⟩ : String) text = false) := by
  intro locs
  induction locs with
  | nil =>
    left
    exact ⟨rfl, by intro l h; cases h⟩
  | cons x xs ih =>
    by_cases hx : pyIn (⟨toLowerL x.toList⟩ : String) text = true
    · right
      refine ⟨[], x, xs, rfl, ?_, hx, by intro q h; cases h⟩
      rw [firstLocation_cons, hx]
      simp only [if_true]
    · have hx2 : pyIn (⟨toLowerL x.toList⟩ : String) text = false :=
        Bool.eq_false_iff.mpr hx
      have hstep : Gendata.firstLocation (x :: xs) text =
          Gendata.firstLocation xs text := by
        rw [firstLocation_cons, hx2]
        simp only [Bool.false_eq_true, if_false]
      rcases ih with ⟨hnone, hall⟩ | ⟨pre, l, post, hdec, hsome, hhit, hpre⟩
      · left
        refine ⟨by rw [hstep]; exact hnone, ?_⟩
        intro l hl
        rcases List.mem_cons.mp hl with rfl | h2
        · exact hx2
        · exact hall l h2
      · right
        refine ⟨x :: pre, l, post, by rw [hdec]; rfl, by rw [hstep]; exact hsome, hhit, ?_⟩
        intro q hq
        rcases List.mem_cons.mp hq with rfl | h2
        · exact hx2
        · exact hpre q h2

theorem extract_locations_eq (text : String) :
    Extr.extract_locations text =
      (Extr.GAZA_LOCATIONS.filter (fun loc =>
        pyIn (⟨toLowerL loc.toList⟩ : String)
          (⟨toLowerL text.toList⟩ : String))).dedup := rfl

/-- Claim C8 (amended): the daily location extractor returns the first
gazetteer entry (in gazetteer list order) whose lowercase form occurs as a
substring of the lowercased title-plus-description, and `"Gaza"` when
nothing matches, so that pipeline's location is always non-empty; on the
spec's test text it returns `"Khan Younis"`.  The text-parser's
`extract_locations` instead returns every matching gazetteer name (deduped,
set order) with no default: it is empty exactly when no gazetteer entry
occurs in the text, and the incident's location field is then left absent. -/
theorem claim_C8_amended :
    (∀ title description : String,
      Gendata.extract_location title description ≠ "" ∧
      ((Gendata.extract_location title description = "Gaza" ∧
        ∀ l ∈ Gendata.gaza_locations,
          pyIn (⟨toLowerL l.toList⟩ : String)
            (⟨toLowerL (title ++ " " ++ description).toList⟩ : String) = false) ∨
       (∃ pre post, Gendata.gaza_locations =
          pre ++ Gendata.extract_location title description :: post ∧
        pyIn (⟨toLowerL (Gendata.extract_location title description).toList⟩ : String)
          (⟨toLowerL (title ++ " " ++ description).toList⟩ : String) = true ∧
        ∀ q ∈ pre,
          pyIn (⟨toLowerL q.toList⟩ : String)
            (⟨toLowerL (title ++ " " ++ description).toList⟩ : String) = false))) ∧
    Gendata.extract_location locationTestText "" = "Khan Younis" ∧
    (∀ text : String,
      Extr.extract_locations text = [] ↔
        ∀ l ∈ Extr.GAZA_LOCATIONS,
          pyIn (⟨toLowerL l.toList⟩ : String)
            (⟨toLowerL text.toList⟩ : String) = false) ∧
    (∀ text : String, ∀ l ∈ Extr.extract_locations text,
      l ∈ Extr.GAZA_LOCATIONS ∧
      pyIn (⟨toLowerL l.toList⟩ : String)
        (⟨toLowerL text.toList⟩ : String) = true) := by
  constructor
  · intro title description
    have hloc := firstLocation_spec
      (⟨toLowerL (title ++ " " ++ description).toList⟩ : String)
      Gendata.gaza_locations
    have hne : ∀ l ∈ Gendata.gaza_locations, l ≠ "" := by decide
    rcases hloc with ⟨hnone, hall⟩ | ⟨pre, l, post, hdec, hsome, hhit, hpre⟩
    · have heq : Gendata.extract_location title description = "Gaza" := by
        rw [extract_location_eq, hnone]
      refine ⟨by rw [heq]; decide, Or.inl ⟨heq, hall⟩⟩
    · have heq : Gendata.extract_location title description = l := by
        rw [extract_location_eq, hsome]
      refine ⟨?_, Or.inr ⟨pre, post, by rw [heq]; exact hdec,
        by rw [heq]; exact hhit, hpre⟩⟩
      rw [heq]
      exact hne l (by rw [hdec]; exact List.mem_append_right pre (List.mem_cons_self l post))
  · refine ⟨by decide, ?_, ?_⟩
    · intro text
      rw [extract_locations_eq]
      constructor
      · intro h l hl
        have hfil := (List.dedup_eq_nil _).mp h
        exact Bool.eq_false_iff.mpr (List.filter_eq_nil_iff.mp hfil l hl)
      · intro h
        rw [List.dedup_eq_nil, List.filter_eq_nil_iff]
        intro a ha
        rw [h a ha]
        intro hc
        cases hc
    · intro text l hl
      rw [extract_locations_eq] at hl
      exact List.mem_filter.mp ((List.mem_dedup).mp hl)

/-- Witness for C8 (amended), instantiating the membership part at a text
containing only `"Rafah"`. -/
theorem claim_C8_amended_witness :
    "Rafah" ∈ Extr.GAZA_LOCATIONS ∧
    pyIn (⟨toLowerL "Rafah".toList⟩ : String)
      (⟨toLowerL ("Rafah strike" : String).toList⟩ : String) = true :=
  claim_C8_amended.2.2.2 "Rafah strike" "Rafah" (by decide)

/-- Counterexample for C8 as stated: the cited `extract_locations`
(text_parser.py, lines 88-105) has no `"Gaza"` default — on a qualifying
paragraph mentioning no gazetteer place it returns the empty list, and the
produced incident's location field is absent, so the always-non-empty /
default-name part of the claim fails for that extractor. -/
theorem claim_C8_counterexample :
    Extr.extract_locations noLocationText = [] ∧
    Extr.extract_incidents_from_paragraph now0 noLocationText =
      some { type := "casualties", description := noLocationText,
             date := "yesterday", location := none, additional_locations := [],
             casualties := some ⟨some 14, none, some 14⟩ } := by
  exact ⟨by decide, by decide⟩

end PalGeno

namespace PalGeno

/-! ## Claim C7 (incident-type classifier) -/

theorem foldBest {α : Type} (f : α → String × Nat) :
    ∀ (l : List α) (acc : String × Nat),
      (l.foldl (fun best y => if (f y).2 > best.2 then f y else best) acc = acc ∧
        ∀ q ∈ l, (f q).2 ≤ acc.2) ∨
      (∃ pre c post, l = pre ++ c :: post ∧
        l.foldl (fun best y => if (f y).2 > best.2 then f y else best) acc = f c ∧
        acc.2 < (f c).2 ∧ (∀ q ∈ pre, (f q).2 < (f c).2) ∧
        (∀ q ∈ l, (f q).2 ≤ (f c).2)) := by
  intro l
  induction l with
  | nil =>
    intro acc
    left
    exact ⟨rfl, by intro q h; cases h⟩
  | cons y ys ih =>
    intro acc
    rw [List.foldl_cons]
    by_cases hy : (f y).2 > acc.2
    · rw [if_pos hy]
      rcases ih (f y) with ⟨heq, hall⟩ | ⟨pre, c, post, hdec, heq, hlt, hpre, hall⟩
      · right
        refine ⟨[], y, ys, rfl, heq, hy, ?_, ?_⟩
        · intro q h; cases h
        · intro q hq
          rcases List.mem_cons.mp hq with rfl | h2
          · exact Nat.le_refl _
          · exact hall q h2
      · right
        refine ⟨y :: pre, c, post, by rw [hdec]; rfl, heq, lt_trans hy hlt, ?_, ?_⟩
        · intro q hq
          rcases List.mem_cons.mp hq with rfl | h2
          · exact hlt
          · exact hpre q h2
        · intro q hq
          rcases List.mem_cons.mp hq with rfl | h2
          · exact le_of_lt hlt
          · exact hall q h2
    · rw [if_neg hy]
      push_neg at hy
      rcases ih acc with ⟨heq, hall⟩ | ⟨pre, c, post, hdec, heq, hlt, hpre, hall⟩
      · left
        refine ⟨heq, ?_⟩
        intro q hq
        rcases List.mem_cons.mp hq with rfl | h2
        · exact hy
        · exact hall q h2
      · right
        refine ⟨y :: pre, c, post, by rw [hdec]; rfl, heq, hlt, ?_, ?_⟩
        · intro q hq
          rcases List.mem_cons.mp hq with rfl | h2
          · exact lt_of_le_of_lt hy hlt
          · exact hpre q h2
        · intro q hq
          rcases List.mem_cons.mp hq with rfl | h2
          · exact le_of_lt (lt_of_le_of_lt hy hlt)
          · exact hall q h2

theorem argmax_map_spec {α : Type} (f : α → String × Nat) (l : List α)
    (hne : l ≠ []) :
    ∃ pre c post, l = pre ++ c :: post ∧
      Extr.argmaxFirst (l.map f) = (f c).1 ∧
      (∀ q ∈ l, (f q).2 ≤ (f c).2) ∧
      (∀ q ∈ pre, (f q).2 < (f c).2) := by
  cases l with
  | nil => exact absurd rfl hne
  | cons x xs =>
    rw [List.map_cons]
    have hfold : Extr.argmaxFirst (f x :: xs.map f) =
        ((xs.map f).foldl (fun best y => if y.2 > best.2 then y else best) (f x)).1 := rfl
    rw [hfold, List.foldl_map]
    rcases foldBest f xs (f x) with ⟨heq, hall⟩ | ⟨pre, c, post, hdec, heq, hlt, hpre, hall⟩
    · refine ⟨[], x, xs, rfl, by rw [heq], ?_, by intro q h; cases h⟩
      intro q hq
      rcases List.mem_cons.mp hq with rfl | h2
      · exact Nat.le_refl _
      · exact hall q h2
    · refine ⟨x :: pre, c, post, by rw [hdec]; rfl, by rw [heq], ?_, ?_⟩
      · intro q hq
        rcases List.mem_cons.mp hq with rfl | h2
        · exact le_of_lt hlt
        · exact hall q h2
      · intro q hq
        rcases List.mem_cons.mp hq with rfl | h2
        · exact hlt
        · exact hpre q h2

/-- Unfolding of `determine_incident_type` (the `let`s are definitional). -/
theorem determine_incident_type_eq (text : String) :
    Extr.determine_incident_type text =
      (if (Extr.INCIDENT_TYPES.map
            (fun c => (c.1, Extr.scoreOf c.2 (⟨toLowerL text.toList⟩ : String)))).any
            (fun sc => sc.2 > 0) then
        Extr.argmaxFirst (Extr.INCIDENT_TYPES.map
          (fun c => (c.1, Extr.scoreOf c.2 (⟨toLowerL text.toList⟩ : String))))
      else "general") := rfl

/-- Claim C7 (amended): the classifier scores each category by how many
entries of its keyword list occur in the lowercased text as substrings (one
point per list entry that is present, regardless of how often it occurs;
the `injuries` list carries `"wounded"` twice), returns the category of
highest score, breaks ties in favor of the first-declared category, returns
`"general"` when every score is zero, and classifies a text containing only
`"malnutrition"` and `"famine"` as `"hunger"`. -/
theorem claim_C7_amended :
    (∀ text : String,
      (Extr.determine_incident_type text = "general" ∧
        ∀ c ∈ Extr.INCIDENT_TYPES,
          Extr.scoreOf c.2 (⟨toLowerL text.toList⟩ : String) = 0) ∨
      (∃ pre c post, Extr.INCIDENT_TYPES = pre ++ c :: post ∧
        Extr.determine_incident_type text = c.1 ∧
        0 < Extr.scoreOf c.2 (⟨toLowerL text.toList⟩ : String) ∧
        (∀ q ∈ Extr.INCIDENT_TYPES,
          Extr.scoreOf q.2 (⟨toLowerL text.toList⟩ : String) ≤
            Extr.scoreOf c.2 (⟨toLowerL text.toList⟩ : String)) ∧
        (∀ q ∈ pre,
          Extr.scoreOf q.2 (⟨toLowerL text.toList⟩ : String) <
            Extr.scoreOf c.2 (⟨toLowerL text.toList⟩ : String)))) ∧
    Extr.determine_incident_type "malnutrition and famine" = "hunger" := by
  constructor
  · intro text
    set tl : String := (⟨toLowerL text.toList⟩ : String) with htl
    by_cases hany : (Extr.INCIDENT_TYPES.map
        (fun c => (c.1, Extr.scoreOf c.2 tl))).any (fun sc => sc.2 > 0) = true
    · right
      obtain ⟨pre, c, post, hdec, hmax, hall, hpre⟩ :=
        argmax_map_spec (fun c => (c.1, Extr.scoreOf c.2 tl))
          Extr.INCIDENT_TYPES (by decide)
      have hr : Extr.determine_incident_type text = c.1 := by
        rw [determine_incident_type_eq, ← htl, if_pos hany]
        exact hmax
      have hexists : ∃ q ∈ Extr.INCIDENT_TYPES, 0 < Extr.scoreOf q.2 tl := by
        rcases List.any_eq_true.mp hany with ⟨sc, hsc, hpos⟩
        rcases List.mem_map.mp hsc with ⟨q, hq, rfl⟩
        exact ⟨q, hq, by simpa using hpos⟩
      obtain ⟨q0, hq0, hq0pos⟩ := hexists
      exact ⟨pre, c, post, hdec, hr, lt_of_lt_of_le hq0pos (hall q0 hq0),
        hall, hpre⟩
    · left
      have hany2 := Bool.eq_false_iff.mpr hany
      constructor
      · rw [determine_incident_type_eq, ← htl, if_neg (by rw [hany2]; simp)]
      · intro c hc
        by_contra hnz
        have hmem : ((c.1, Extr.scoreOf c.2 tl) : String × Nat) ∈
            Extr.INCIDENT_TYPES.map (fun c => (c.1, Extr.scoreOf c.2 tl)) :=
          List.mem_map.mpr ⟨c, hc, rfl⟩
        have : (Extr.INCIDENT_TYPES.map
            (fun c => (c.1, Extr.scoreOf c.2 tl))).any (fun sc => sc.2 > 0) = true :=
          List.any_eq_true.mpr ⟨_, hmem, by simp; omega⟩
        exact hany this
  · decide

/-- Witness for C7 (amended): the concrete hunger classification, via the
theorem. -/
theorem claim_C7_amended_witness :
    Extr.determine_incident_type "malnutrition and famine" = "hunger" :=
  claim_C7_amended.2

/-- Counterexample for C7 as stated: on
`"killed killed killed wounded hurt"` occurrence-counting (the claim's
scoring rule, embodied by `classifierAsClaimed`) yields `"casualties"`
(3 occurrences of "killed" vs a tie broken first-declared), but the code's
presence-counting yields `"injuries"` (score 3 from `wounded`, `hurt` and
the duplicated `wounded` entry, against 1 for `casualties`). -/
theorem claim_C7_counterexample :
    Extr.determine_incident_type classifierTestText = "injuries" ∧
    Extr.classifierAsClaimed classifierTestText = "casualties" ∧
    Extr.determine_incident_type classifierTestText ≠
      Extr.classifierAsClaimed classifierTestText := by
  have h1 : Extr.determine_incident_type classifierTestText = "injuries" := by decide
  have h2 : Extr.classifierAsClaimed classifierTestText = "casualties" := by decide
  refine ⟨h1, h2, ?_⟩
  rw [h1, h2]
  decide

end PalGeno

namespace PalGeno

/-! ## Claim C9 (description length caps) -/

/-- Claim C9 (amended): article-mode descriptions are capped at 2000
characters; digest-mode extracts are capped at `max_chars + 3` (the slice
plus a three-character ellipsis), and the cap of 800 alone is exceeded:
a single 801-character relevant line yields an 803-character result. -/
theorem claim_C9_amended :
    (∀ content : String, (Gendata.articleDescription content).length ≤ 2000) ∧
    (∀ (text : String) (keywords : List String) (max_chars : Nat),
      (UserBin.extract_relevant_paragraphs text keywords max_chars).length ≤
        max_chars + 3) ∧
    (UserBin.extract_relevant_paragraphs digestLongText ["aid"] 800).length = 803 := by
  refine ⟨?_, ?_, ?_⟩
  · intro content
    show ((Gendata.clean_text content).toList.take 2000).length ≤ 2000
    rw [List.length_take]
    exact min_le_left _ _
  · intro text keywords max_chars
    simp only [UserBin.extract_relevant_paragraphs]
    split
    · rw [String.length_append]
      have h1 : (String.mk ((pyJoin " "
          ((pySplitChar '\n' text).filter (fun para =>
            keywords.any (fun kw =>
              pyIn (⟨toLowerL kw.toList⟩ : String)
                (⟨toLowerL para.toList⟩ : String))) |>.map pyStrip)).toList.take
            max_chars)).length ≤ max_chars := by
        show (List.take max_chars _).length ≤ max_chars
        rw [List.length_take]
        exact min_le_left _ _
      have h2 : ("..." : String).length = 3 := rfl
      omega
    · next h =>
        have : ¬ _ > max_chars := h
        omega
  · decide

/-- Counterexample for C9 as stated: digest mode is not capped at 800
characters — the 801-character relevant text produces an 803-character
description (800-character slice plus `"..."`). -/
theorem claim_C9_counterexample :
    (UserBin.extract_relevant_paragraphs digestLongText ["aid"] 800).length = 803 ∧
    ¬ ((UserBin.extract_relevant_paragraphs digestLongText ["aid"] 800).length ≤ 800) := by
  have h : (UserBin.extract_relevant_paragraphs digestLongText ["aid"] 800).length = 803 := by
    decide
  refine ⟨h, ?_⟩
  rw [h]
  decide

end PalGeno

namespace PalGeno

/-! ## Claim C6 (title-similarity dedup) -/

theorem jaccardGT_ok (tw : List String) (st : String) (htw : tw ≠ []) :
    UserBin.jaccardGT tw (UserBin.wordList st) = .ok (dedupJac tw st) := by
  unfold UserBin.jaccardGT dedupJac
  dsimp only
  have hlen : 0 < (tw ++ (UserBin.wordList st).filter (fun w => !tw.contains w)).length := by
    rw [List.length_append]
    have := List.length_pos.mpr htw
    omega
  have hcond : ((tw ++ (UserBin.wordList st).filter (fun w => !tw.contains w)).length
      == 0) = false := by
    rw [beq_eq_false_iff_ne]
    omega
  rw [hcond]
  simp only [Bool.false_eq_true, if_false]

theorem anyDuplicate_ok (tw : List String) (htw : tw ≠ []) : ∀ seen : List String,
    UserBin.anyDuplicate tw seen = .ok (seen.any (dedupJac tw)) := by
  intro seen
  induction seen with
  | nil => rfl
  | cons st rest ih =>
    unfold UserBin.anyDuplicate
    rw [jaccardGT_ok tw st htw, List.any_cons]
    cases hj : dedupJac tw st with
    | true => rfl
    | false =>
      dsimp only
      rw [ih]
      simp

theorem removeDupLoop_ok : ∀ (l acc : List UserBin.DIncident) (seen : List String),
    (∀ inc ∈ l, UserBin.wordList (⟨toLowerL inc.title.toList⟩ : String) ≠ []) →
    UserBin.removeDupLoop l acc seen = .ok (acc ++ dedupTotal l seen) := by
  intro l
  induction l with
  | nil =>
    intro acc seen _
    simp [UserBin.removeDupLoop, dedupTotal]
  | cons inc rest ih =>
    intro acc seen h
    have hinc := h inc (List.mem_cons_self inc rest)
    have hrest : ∀ i ∈ rest, UserBin.wordList (⟨toLowerL i.title.toList⟩ : String) ≠ [] :=
      fun i hi => h i (List.mem_cons_of_mem inc hi)
    unfold UserBin.removeDupLoop dedupTotal
    rw [anyDuplicate_ok _ hinc seen]
    cases hany : (seen.any (dedupJac
        (UserBin.wordList (⟨toLowerL inc.title.toList⟩ : String)))) with
    | true =>
      dsimp only
      exact ih acc seen hrest
    | false =>
      dsimp only
      rw [ih (acc ++ [inc]) _ hrest]
      simp [List.append_assoc]

/-- Claim C6 (amended): on every incident list whose titles each contain at
least one word, the dedup keeps the first-seen incident and drops every
later incident whose title word set has Jaccard similarity strictly above
0.7 with the title of an already-retained incident (the computation
`dedupTotal`); the two spec titles collapse to the first record.  (On two
whitespace-only titles the code instead raises `ZeroDivisionError`.) -/
theorem claim_C6_amended (incidents : List UserBin.DIncident)
    (h : ∀ inc ∈ incidents,
      UserBin.wordList (⟨toLowerL inc.title.toList⟩ : String) ≠ []) :
    UserBin.remove_duplicates incidents = .ok (dedupTotal incidents []) ∧
    UserBin.remove_duplicates [dupA, dupB] = .ok [dupA] := by
  constructor
  · have := removeDupLoop_ok incidents [] [] h
    rw [UserBin.remove_duplicates, this]
    rw [List.nil_append]
  · decide

/-- Witness for C6 (amended), instantiating the theorem at the two spec
titles (whose word sets are non-empty). -/
theorem claim_C6_amended_witness :
    UserBin.remove_duplicates [dupA, dupB] = .ok [dupA] :=
  (claim_C6_amended [dupA, dupB] (by decide)).2

/-- Counterexample for C6 as stated: on a list of two incidents with
whitespace-only titles the filter does not keep/drop anything — it raises
`ZeroDivisionError` (Python divides by the size of the union of two empty
word sets). -/
theorem claim_C6_counterexample :
    UserBin.remove_duplicates [emptyTitleA, emptyTitleB] =
      .error "ZeroDivisionError" ∧
    (UserBin.remove_duplicates [emptyTitleA, emptyTitleB]).toOption = none := by
  have h : UserBin.remove_duplicates [emptyTitleA, emptyTitleB] =
      .error "ZeroDivisionError" := by decide
  exact ⟨h, by rw [h]; rfl⟩

end PalGeno

namespace PalGeno

/-! ## Claim C4 (dataset merge) -/

theorem contains_of_mem {a : String} : ∀ {l : List String}, a ∈ l →
    l.contains a = true := by
  intro l
  induction l with
  | nil => intro h; cases h
  | cons x xs ih =>
    intro h
    rcases List.mem_cons.mp h with rfl | h2
    · simp [List.contains_cons]
    · simp only [List.contains_cons, ih h2, Bool.or_true]

theorem contains_append_split {l1 l2 : List String} {a : String} :
    (l1 ++ l2).contains a = (l1.contains a || l2.contains a) := by
  induction l1 with
  | nil => simp
  | cons x xs ih => simp [List.contains_cons, ih, Bool.or_assoc]

theorem mergeLoop_eq : ∀ (new rows : List Gendata.Row) (ids : List String) (count : Nat),
    Gendata.mergeLoop new rows ids count =
      (rows ++ freshFilter ids new, count + (freshFilter ids new).length) := by
  intro new
  induction new with
  | nil =>
    intro rows ids count
    simp [Gendata.mergeLoop, freshFilter]
  | cons d rest ih =>
    intro rows ids count
    unfold Gendata.mergeLoop freshFilter
    by_cases hd : ids.contains d.id
    · rw [if_pos hd, if_pos hd]
      exact ih rows ids count
    · rw [if_neg hd, if_neg hd]
      rw [ih (rows ++ [d]) (ids ++ [d.id]) (count + 1)]
      rw [Prod.mk.injEq]
      constructor
      · rw [List.append_assoc, List.singleton_append]
      · rw [List.length_cons]
        omega

theorem freshFilter_sub : ∀ (new : List Gendata.Row) (ids : List String),
    ∀ d ∈ freshFilter ids new, d ∈ new ∧ ids.contains d.id = false := by
  intro new
  induction new with
  | nil => intro ids d h; cases h
  | cons x rest ih =>
    intro ids d h
    unfold freshFilter at h
    by_cases hx : ids.contains x.id
    · rw [if_pos hx] at h
      obtain ⟨hm, hc⟩ := ih ids d h
      exact ⟨List.mem_cons_of_mem x hm, hc⟩
    · rw [if_neg hx] at h
      rcases List.mem_cons.mp h with rfl | h2
      · exact ⟨List.mem_cons_self d rest, Bool.eq_false_iff.mpr hx⟩
      · obtain ⟨hm, hc⟩ := ih (ids ++ [x.id]) d h2
        refine ⟨List.mem_cons_of_mem x hm, ?_⟩
        rw [contains_append_split] at hc
        rcases Bool.or_eq_false_iff.mp hc with ⟨h1, _⟩
        exact h1

theorem freshFilter_complete : ∀ (new : List Gendata.Row) (ids : List String),
    ∀ d ∈ new, ids.contains d.id = false →
      ∃ d2 ∈ freshFilter ids new, d2.id = d.id := by
  intro new
  induction new with
  | nil => intro ids d h; cases h
  | cons x rest ih =>
    intro ids d hd hfree
    unfold freshFilter
    rcases List.mem_cons.mp hd with rfl | h2
    · rw [if_neg (by rw [hfree]; intro hc; cases hc)]
      exact ⟨d, List.mem_cons_self d _, rfl⟩
    · by_cases hx : ids.contains x.id
      · rw [if_pos hx]
        exact ih ids d h2 hfree
      · rw [if_neg hx]
        by_cases hsame : d.id = x.id
        · exact ⟨x, List.mem_cons_self x _, hsame.symm⟩
        · have hfree2 : (ids ++ [x.id]).contains d.id = false := by
            rw [contains_append_split, hfree]
            simp [List.contains_cons]
            intro hc
            exact hsame (by rw [hc])
          obtain ⟨d2, hd2, hid⟩ := ih (ids ++ [x.id]) d h2 hfree2
          exact ⟨d2, List.mem_cons_of_mem x hd2, hid⟩

theorem freshFilter_nil_of_all : ∀ (new : List Gendata.Row) (ids : List String),
    (∀ d ∈ new, ids.contains d.id = true) → freshFilter ids new = [] := by
  intro new
  induction new with
  | nil => intro ids _; rfl
  | cons x rest ih =>
    intro ids h
    unfold freshFilter
    rw [if_pos (h x (List.mem_cons_self x rest))]
    exact ih ids (fun d hd => h d (List.mem_cons_of_mem x hd))

/-- Claim C4: the merge appends exactly the new rows whose id is not already
known (first occurrence of each fresh id), leaves the pre-existing rows
unchanged as a prefix, silently drops colliding rows, reports the count of
newly added rows, and merging the same batch a second time adds zero rows. -/
theorem claim_C4 (existing new_data : List Gendata.Row) :
    Gendata.update_main_csv existing new_data =
      (existing ++ freshFilter (existing.map (fun r => r.id)) new_data,
       (freshFilter (existing.map (fun r => r.id)) new_data).length) ∧
    (Gendata.update_main_csv existing new_data).1.take existing.length = existing ∧
    (∀ d ∈ freshFilter (existing.map (fun r => r.id)) new_data,
      d ∈ new_data ∧ (existing.map (fun r => r.id)).contains d.id = false) ∧
    (∀ d ∈ new_data, (existing.map (fun r => r.id)).contains d.id = false →
      ∃ d2 ∈ freshFilter (existing.map (fun r => r.id)) new_data, d2.id = d.id) ∧
    Gendata.update_main_csv (Gendata.update_main_csv existing new_data).1 new_data =
      ((Gendata.update_main_csv existing new_data).1, 0) := by
  have hmain : Gendata.update_main_csv existing new_data =
      (existing ++ freshFilter (existing.map (fun r => r.id)) new_data,
       (freshFilter (existing.map (fun r => r.id)) new_data).length) := by
    unfold Gendata.update_main_csv
    rw [mergeLoop_eq]
    rw [Nat.zero_add]
  refine ⟨hmain, ?_, freshFilter_sub new_data _, freshFilter_complete new_data _, ?_⟩
  · rw [hmain]
    exact List.take_left existing _
  · rw [hmain]
    unfold Gendata.update_main_csv
    rw [mergeLoop_eq]
    have hall : ∀ d ∈ new_data,
        ((existing ++ freshFilter (existing.map (fun r => r.id)) new_data).map
          (fun r => r.id)).contains d.id = true := by
      intro d hd
      rw [List.map_append, contains_append_split]
      by_cases hfree : (existing.map (fun r => r.id)).contains d.id
      · rw [hfree]; rfl
      · have hfree2 := Bool.eq_false_iff.mpr hfree
        obtain ⟨d2, hd2, hid⟩ := freshFilter_complete new_data _ d hd hfree2
        have : d.id ∈ (freshFilter (existing.map (fun r => r.id)) new_data).map
            (fun r => r.id) := List.mem_map.mpr ⟨d2, hd2, hid⟩
        rw [contains_of_mem this]
        simp
    rw [freshFilter_nil_of_all new_data _ hall]
    simp

/-- Witness for C4 at a concrete collection: merging `{a}` with `{a, b}`
appends a row whose id is `"b"`. -/
theorem claim_C4_witness :
    ∃ d2 ∈ freshFilter ([(⟨"a", []⟩ : Gendata.Row)].map (fun r => r.id))
      [(⟨"a", []⟩ : Gendata.Row), (⟨"b", []⟩ : Gendata.Row)], d2.id = "b" :=
  (claim_C4 [⟨"a", []⟩] [⟨"a", []⟩, ⟨"b", []⟩]).2.2.2.1 ⟨"b", []⟩
    (by decide) (by decide)

end PalGeno

namespace PalGeno

/-! ## Claim C5 (batch URL processing) -/

theorem batchLoop_eq (f : String → List Extr.UrlEntry) :
    ∀ (urls : List String) (inc : List Extr.UrlEntry) (errs : List Extr.UrlError),
      Extr.batchLoop f urls inc errs =
        (inc ++ urls.flatMap (urlIncOf f), errs ++ urls.flatMap (urlErrOf f)) := by
  intro urls
  induction urls with
  | nil =>
    intro inc errs
    simp [Extr.batchLoop]
  | cons u rest ih =>
    intro inc errs
    unfold Extr.batchLoop
    cases hh : (f u).head? with
    | none =>
      have h1 : urlIncOf f u = f u := by unfold urlIncOf; rw [hh]
      have h2 : urlErrOf f u = [] := by unfold urlErrOf; rw [hh]
      rw [List.flatMap_cons, List.flatMap_cons, h1, h2]
      rw [ih (inc ++ f u) errs]
      rw [Prod.mk.injEq]
      exact ⟨by rw [List.append_assoc], by rw [List.nil_append]⟩
    | some e =>
      cases e with
      | inc i =>
        have h1 : urlIncOf f u = f u := by unfold urlIncOf; rw [hh]
        have h2 : urlErrOf f u = [] := by unfold urlErrOf; rw [hh]
        rw [List.flatMap_cons, List.flatMap_cons, h1, h2]
        rw [ih (inc ++ f u) errs]
        rw [Prod.mk.injEq]
        exact ⟨by rw [List.append_assoc], by rw [List.nil_append]⟩
      | errorRec er de =>
        have h1 : urlIncOf f u = [] := by unfold urlIncOf; rw [hh]
        have h2 : urlErrOf f u = [⟨u, er⟩] := by unfold urlErrOf; rw [hh]
        rw [List.flatMap_cons, List.flatMap_cons, h1, h2]
        show Extr.batchLoop f rest inc (errs ++ [(⟨u, er⟩ : Extr.UrlError)]) = _
        rw [ih inc (errs ++ [(⟨u, er⟩ : Extr.UrlError)])]
        rw [Prod.mk.injEq]
        exact ⟨by rw [List.nil_append], by rw [List.append_assoc, List.singleton_append]⟩

/-- Claim C5: for every fetch oracle and URL batch, each per-URL failure is
converted into a single error entry naming that URL and processing
continues; the batch result is exactly the concatenation of the incidents of
all successful URLs, the structured error list, and the accounting stats.
On the concrete three-URL batch whose second URL times out, the result holds
the incidents of the first and third URL plus exactly one error entry for
the second. -/
theorem claim_C5 :
    (∀ (f : String → List Extr.UrlEntry) (urls : List String),
      Extr.extract_incidents_from_multiple_urls f urls =
        ⟨urls.flatMap (urlIncOf f), urls.flatMap (urlErrOf f),
         ⟨urls.length, urls.length - (urls.flatMap (urlErrOf f)).length,
          (urls.flatMap (urlErrOf f)).length,
          (urls.flatMap (urlIncOf f)).length⟩⟩) ∧
    (∀ (http : String → Extr.HttpResult) (sentTok : String → List String)
        (now : DateTimeV) (url : String), http url = .timeout →
      Extr.extract_incidents_from_url http sentTok now url =
        [.errorRec "Request timed out"
          ("The request to " ++ url ++ " took too long to complete")]) ∧
    Extr.extract_incidents_from_multiple_urls
        (Extr.extract_incidents_from_url http0 sentTok0 now0)
        [urlOne, urlTwo, urlThree] =
      ⟨Extr.extract_incidents_from_url http0 sentTok0 now0 urlOne ++
         Extr.extract_incidents_from_url http0 sentTok0 now0 urlThree,
       [⟨urlTwo, "Request timed out"⟩], ⟨3, 2, 1, 2⟩⟩ := by
  refine ⟨?_, ?_, ?_⟩
  · intro f urls
    unfold Extr.extract_incidents_from_multiple_urls
    rw [batchLoop_eq f urls [] []]
    rw [List.nil_append, List.nil_append]
  · intro http sentTok now url h
    unfold Extr.extract_incidents_from_url
    rw [h]
  · decide

/-- Witness for C5: the timeout conversion at the concrete second URL,
via the theorem. -/
theorem claim_C5_witness :
    Extr.extract_incidents_from_url http0 sentTok0 now0 urlTwo =
      [.errorRec "Request timed out"
        ("The request to " ++ urlTwo ++ " took too long to complete")] :=
  claim_C5.2.1 http0 sentTok0 now0 urlTwo (by decide)

end PalGeno

namespace PalGeno

/-! ## Claim C3 (date fields): engine consumption lemmas -/

theorem digitTake_length_le : ∀ s : List Char, (digitTake s).length ≤ s.length := by
  intro s
  induction s with
  | nil => exact Nat.le_refl 0
  | cons c rest ih =>
    show (if isAsciiDigit c then c :: digitTake rest else []).length ≤ (c :: rest).length
    by_cases h : isAsciiDigit c
    · rw [if_pos h]
      simp only [List.length_cons]
      omega
    · rw [if_neg h]
      simp

theorem digitSplits_mem {s : List Char} {pr : List Char × List Char}
    (h : pr ∈ digitSplits s) :
    ∃ m, 1 ≤ m ∧ m ≤ s.length ∧ pr.2 = s.drop m := by
  unfold digitSplits at h
  rw [List.mem_map] at h
  obtain ⟨k, hk, rfl⟩ := h
  rw [List.mem_range] at hk
  refine ⟨(digitTake s).length - k, by omega, ?_, rfl⟩
  have := digitTake_length_le s
  omega

theorem mem_of_head?_eq_some {α : Type} {l : List α} {a : α}
    (h : l.head? = some a) : a ∈ l := by
  cases l with
  | nil => cases h
  | cons x xs =>
    rw [List.head?_cons, Option.some.injEq] at h
    rw [← h]
    exact List.mem_cons_self x xs

theorem reAll_rest_le : ∀ (fuel : Nat) (r : RE) (s : List Char)
    (c : Option (List Char)) (p : List Char × Option (List Char)),
    p ∈ reAll fuel r s c → p.1.length ≤ s.length := by
  intro fuel
  induction fuel with
  | zero => intro r s c p h; cases h
  | succ n ih =>
    intro r s c p h
    cases r with
    | eps =>
      simp only [reAll] at h
      rw [List.mem_singleton] at h
      rw [h]
    | lit ch =>
      cases s with
      | nil =>
        simp only [reAll] at h
        simp at h
      | cons x xs =>
        simp only [reAll] at h
        split at h
        · rw [List.mem_singleton] at h
          subst h
          dsimp only
          rw [List.length_cons]
          omega
        · simp at h
    | cls pc =>
      cases s with
      | nil =>
        simp only [reAll] at h
        simp at h
      | cons x xs =>
        simp only [reAll] at h
        split at h
        · rw [List.mem_singleton] at h
          subst h
          dsimp only
          rw [List.length_cons]
          omega
        · simp at h
    | seq r1 r2 =>
      simp only [reAll] at h
      rw [List.mem_flatMap] at h
      obtain ⟨q, hq, hp⟩ := h
      exact le_trans (ih r2 q.1 q.2 p hp) (ih r1 s c q hq)
    | alt r1 r2 =>
      simp only [reAll] at h
      rcases List.mem_append.mp h with h1 | h2
      · exact ih r1 s c p h1
      · exact ih r2 s c p h2
    | starL r0 =>
      simp only [reAll] at h
      rcases List.mem_cons.mp h with rfl | h2
      · exact Nat.le_refl _
      · rw [List.mem_flatMap] at h2
        obtain ⟨q, hq, hp⟩ := h2
        exact le_trans (ih (.starL r0) q.1 q.2 p hp) (ih r0 s c q hq)
    | starG r0 =>
      simp only [reAll] at h
      rcases List.mem_append.mp h with h1 | h2
      · rw [List.mem_flatMap] at h1
        obtain ⟨q, hq, hp⟩ := h1
        exact le_trans (ih (.starG r0) q.1 q.2 p hp) (ih r0 s c q hq)
      · rw [List.mem_singleton] at h2
        rw [h2]
    | grpDigits =>
      simp only [reAll] at h
      rw [List.mem_map] at h
      obtain ⟨pr, hpr, rfl⟩ := h
      obtain ⟨m, _, hm2, hdrop⟩ := digitSplits_mem hpr
      rw [hdrop, List.length_drop]
      omega

theorem reAll_rest_lt : ∀ (fuel : Nat) (r : RE), consumesFirst r = true →
    ∀ (s : List Char) (c : Option (List Char))
      (p : List Char × Option (List Char)),
      p ∈ reAll fuel r s c → p.1.length < s.length := by
  intro fuel
  induction fuel with
  | zero => intro r _ s c p h; cases h
  | succ n ih =>
    intro r hr s c p h
    cases r with
    | eps => simp [consumesFirst] at hr
    | starL r0 => simp [consumesFirst] at hr
    | starG r0 => simp [consumesFirst] at hr
    | lit ch =>
      cases s with
      | nil =>
        simp only [reAll] at h
        simp at h
      | cons x xs =>
        simp only [reAll] at h
        split at h
        · rw [List.mem_singleton] at h
          subst h
          dsimp only
          rw [List.length_cons]
          omega
        · simp at h
    | cls pc =>
      cases s with
      | nil =>
        simp only [reAll] at h
        simp at h
      | cons x xs =>
        simp only [reAll] at h
        split at h
        · rw [List.mem_singleton] at h
          subst h
          dsimp only
          rw [List.length_cons]
          omega
        · simp at h
    | seq r1 r2 =>
      have hr1 : consumesFirst r1 = true := hr
      simp only [reAll] at h
      rw [List.mem_flatMap] at h
      obtain ⟨q, hq, hp⟩ := h
      exact lt_of_le_of_lt (reAll_rest_le n r2 q.1 q.2 p hp) (ih r1 hr1 s c q hq)
    | alt r1 r2 =>
      rw [show consumesFirst (RE.alt r1 r2) =
        (consumesFirst r1 && consumesFirst r2) from rfl, Bool.and_eq_true] at hr
      simp only [reAll] at h
      rcases List.mem_append.mp h with h1 | h2
      · exact ih r1 hr.1 s c p h1
      · exact ih r2 hr.2 s c p h2
    | grpDigits =>
      simp only [reAll] at h
      rw [List.mem_map] at h
      obtain ⟨pr, hpr, rfl⟩ := h
      obtain ⟨m, hm1, hm2, hdrop⟩ := digitSplits_mem hpr
      rw [hdrop, List.length_drop]
      omega

theorem findallStrsAux_ne_empty (r : RE) (hr : consumesFirst r = true) :
    ∀ (fuel : Nat) (s : List Char), ∀ str ∈ findallStrsAux r fuel s, str ≠ "" := by
  intro fuel
  induction fuel with
  | zero => intro s str h; cases h
  | succ n ih =>
    intro s str h
    cases s with
    | nil =>
      simp only [findallStrsAux] at h
      cases hm : matchAtPos r [] with
      | none => rw [hm] at h; cases h
      | some q =>
        have hq : q ∈ reAll (fuelFor []) r [] none := mem_of_head?_eq_some hm
        have := reAll_rest_lt (fuelFor []) r hr [] none q hq
        simp at this
    | cons c0 rest =>
      simp only [findallStrsAux] at h
      cases hm : matchAtPos r (c0 :: rest) with
      | none =>
        rw [hm] at h
        exact ih rest str h
      | some q =>
        rw [hm] at h
        obtain ⟨qr, qc⟩ := q
        have hq : (qr, qc) ∈ reAll (fuelFor (c0 :: rest)) r (c0 :: rest) none :=
          mem_of_head?_eq_some hm
        have hlt : qr.length < (c0 :: rest).length :=
          reAll_rest_lt _ r hr _ none (qr, qc) hq
        have htake : ∃ m, (c0 :: rest).length - qr.length = m + 1 := by
          rw [List.length_cons]
          rw [List.length_cons] at hlt
          exact ⟨rest.length - qr.length, by omega⟩
        obtain ⟨m, hm2⟩ := htake
        have hmatched : (⟨(c0 :: rest).take ((c0 :: rest).length - qr.length)⟩ : String) ≠ "" := by
          rw [hm2]
          intro hc
          have := congrArg String.data hc
          simp only [List.take_cons] at this
          cases this
        dsimp only at h
        split at h
        · rcases List.mem_cons.mp h with rfl | h2
          · exact hmatched
          · exact ih _ str h2
        · rcases List.mem_cons.mp h with rfl | h2
          · exact hmatched
          · exact ih _ str h2

theorem extract_dates_eq (now : DateTimeV) (text : String) :
    Extr.extract_dates now text =
      match Extr.DATE_PATTERNS.flatMap (fun p => findallStrs p text.toList) with
      | d :: _ => d
      | [] => pad2 now.day ++ " " ++ monthName now.month ++ " " ++ fmtYear now.year := rfl

theorem extract_dates_ne_empty (now : DateTimeV) (text : String) :
    Extr.extract_dates now text ≠ "" := by
  rw [extract_dates_eq]
  cases hd : Extr.DATE_PATTERNS.flatMap (fun p => findallStrs p text.toList) with
  | nil =>
    intro hc
    have hlen := congrArg String.length hc
    simp only [String.length_append] at hlen
    have h1 : (" " : String).length = 1 := rfl
    have h0 : ("" : String).length = 0 := rfl
    omega
  | cons d ds =>
    have hmem : d ∈ Extr.DATE_PATTERNS.flatMap (fun p => findallStrs p text.toList) := by
      rw [hd]
      exact List.mem_cons_self d ds
    rw [List.mem_flatMap] at hmem
    obtain ⟨p, hp, hd2⟩ := hmem
    have hall : ∀ q ∈ Extr.DATE_PATTERNS, consumesFirst q = true := by decide
    exact findallStrsAux_ne_empty p (hall p hp) _ _ d hd2

end PalGeno

namespace PalGeno

/-! ## Claim C3: shape of the dates rendered by `parse_date_time` -/

theorem natDec_small {n : Nat} (h : n < 10) : natDec n = [Nat.digitChar n] := by
  rw [natDec, if_pos h]

theorem digitChar_isDigit {n : Nat} (h : n < 10) :
    isAsciiDigit (Nat.digitChar n) = true := by
  interval_cases n <;> decide

theorem natDec_two {n : Nat} (h1 : 10 ≤ n) (h2 : n ≤ 99) :
    natDec n = [Nat.digitChar (n / 10), Nat.digitChar (n % 10)] := by
  rw [natDec, if_neg (by omega), natDec_small (by omega)]
  rfl

theorem natDec_four {y : Nat} (h1 : 1000 ≤ y) (h2 : y ≤ 9999) :
    natDec y = [Nat.digitChar (y / 10 / 10 / 10), Nat.digitChar (y / 10 / 10 % 10),
                Nat.digitChar (y / 10 % 10), Nat.digitChar (y % 10)] := by
  rw [natDec, if_neg (by omega)]
  rw [natDec, if_neg (by omega)]
  rw [natDec, if_neg (by omega)]
  rw [natDec_small (by omega)]
  rfl

theorem pad2_shape {n : Nat} (h : n ≤ 99) :
    ∃ a b, (pad2 n).data = [a, b] ∧ isAsciiDigit a = true ∧ isAsciiDigit b = true := by
  unfold pad2 natDecS
  by_cases h10 : n < 10
  · rw [if_pos h10, natDec_small h10]
    exact ⟨'0', Nat.digitChar n, rfl, by decide, digitChar_isDigit h10⟩
  · rw [if_neg h10, natDec_two (by omega) h]
    exact ⟨Nat.digitChar (n / 10), Nat.digitChar (n % 10), rfl,
      digitChar_isDigit (by omega), digitChar_isDigit (by omega)⟩

theorem fmtYear_shape {y : Nat} (h1 : 1000 ≤ y) (h2 : y ≤ 9999) :
    ∃ a b c d, (fmtYear y).data = [a, b, c, d] ∧ isAsciiDigit a = true ∧
      isAsciiDigit b = true ∧ isAsciiDigit c = true ∧ isAsciiDigit d = true := by
  unfold fmtYear natDecS
  rw [natDec_four h1 h2]
  exact ⟨_, _, _, _, rfl, digitChar_isDigit (by omega), digitChar_isDigit (by omega),
    digitChar_isDigit (by omega), digitChar_isDigit (by omega)⟩

theorem canonical_render {y mo d : Nat} (hy1 : 1000 ≤ y) (hy2 : y ≤ 9999)
    (hmo : mo ≤ 99) (hd : d ≤ 99) :
    isCanonicalDateStr (fmtYear y ++ "-" ++ pad2 mo ++ "-" ++ pad2 d) = true := by
  obtain ⟨c1, c2, c3, c4, hy, h1, h2, h3, h4⟩ := fmtYear_shape hy1 hy2
  obtain ⟨a, b, hab, ha, hb⟩ := pad2_shape hmo
  obtain ⟨e, f, hef, he, hf⟩ := pad2_shape hd
  have hdata : (fmtYear y ++ "-" ++ pad2 mo ++ "-" ++ pad2 d).data =
      [c1, c2, c3, c4, '-', a, b, '-', e, f] := by
    show (fmtYear y).data ++ ("-" : String).data ++ (pad2 mo).data ++
        ("-" : String).data ++ (pad2 d).data = _
    rw [hy, hab, hef]
    rfl
  unfold isCanonicalDateStr
  show (match (fmtYear y ++ "-" ++ pad2 mo ++ "-" ++ pad2 d).data with
    | [a, b, c, d, h1, e, f, h2, g, h] =>
      isAsciiDigit a && isAsciiDigit b && isAsciiDigit c && isAsciiDigit d &&
      (h1 == '-') && isAsciiDigit e && isAsciiDigit f && (h2 == '-') &&
      isAsciiDigit g && isAsciiDigit h
    | _ => false) = true
  rw [hdata]
  dsimp only
  rw [h1, h2, h3, h4, ha, hb, he, hf]
  rfl

theorem renderDate_ne_empty (y mo d : Nat) :
    (fmtYear y ++ "-" ++ pad2 mo ++ "-" ++ pad2 d) ≠ "" := by
  intro hc
  have hlen := congrArg String.length hc
  simp only [String.length_append] at hlen
  have h1 : ("-" : String).length = 1 := rfl
  have h0 : ("" : String).length = 0 := rfl
  omega

theorem strptimeFmt_valid {items : List Gendata.FmtItem} {s : List Char}
    {tm : Gendata.TM} (h : Gendata.strptimeFmt items s = some tm) :
    Gendata.validTM tm = true := by
  unfold Gendata.strptimeFmt at h
  cases hh : (Gendata.runFmt items ⟨1900, 1, 1, 0, 0, 0⟩ s).head? with
  | none => rw [hh] at h; cases h
  | some pr =>
    rw [hh] at h
    obtain ⟨tm2, rest⟩ := pr
    cases rest with
    | nil =>
      dsimp only at h
      split at h
      · rw [Option.some.injEq] at h
        rw [← h]
        assumption
      · cases h
    | cons a as =>
      dsimp only at h
      cases h

theorem tryFormats_valid : ∀ (fmts : List (List Gendata.FmtItem)) (dt : List Char)
    (tm : Gendata.TM) (b : Bool),
    Gendata.tryFormats fmts dt = some (tm, b) → Gendata.validTM tm = true := by
  intro fmts
  induction fmts with
  | nil => intro dt tm b h; cases h
  | cons f rest ih =>
    intro dt tm b h
    unfold Gendata.tryFormats at h
    dsimp only at h
    cases hs : Gendata.strptimeFmt f
        (if f.contains (Gendata.FmtItem.litc 'T') then dt.take 19 else dt) with
    | some tm2 =>
      rw [hs] at h
      dsimp only at h
      rw [Option.some.injEq, Prod.mk.injEq] at h
      rw [← h.1]
      exact strptimeFmt_valid hs
    | none =>
      rw [hs] at h
      dsimp only at h
      exact ih dt tm b h

theorem daysInMonth_le (y m : Nat) : Gendata.daysInMonth y m ≤ 31 := by
  unfold Gendata.daysInMonth
  split
  · split <;> omega
  · split <;> omega

theorem parse_date_time_eq (now : DateTimeV) (date_text : String) :
    Gendata.parse_date_time now date_text =
      if date_text = "" then Gendata.nowDateTimeStr now
      else
        match Gendata.tryFormats Gendata.fmtList (pyStrip date_text).toList with
        | some (tm, hasH) =>
          ⟨fmtYear tm.y ++ "-" ++ pad2 tm.mo ++ "-" ++ pad2 tm.d,
           if hasH then pad2 tm.h ++ ":" ++ pad2 tm.mi ++ ":" ++ pad2 tm.s
           else "12:00:00"⟩
        | none => Gendata.nowDateTimeStr now := rfl

/-- Claim C3 (amended): the text-parser date extractor always returns a
non-empty string, but it is the raw matched pattern text (or the current
date rendered as "DD Month YYYY"), not necessarily canonical; the daily
extractor's `parse_date_time` always returns a non-empty date of the form
`Y-MM-DD` for a valid calendar date, which is canonical `YYYY-MM-DD`
whenever the year has four digits, falling back to the current processing
instant when no format matches. -/
theorem claim_C3_amended (now : DateTimeV) (text date_text : String)
    (hwf : WFNow now) :
    Extr.extract_dates now text ≠ "" ∧
    ∃ y mo d : Nat,
      (Gendata.parse_date_time now date_text).date =
        fmtYear y ++ "-" ++ pad2 mo ++ "-" ++ pad2 d ∧
      1 ≤ y ∧ 1 ≤ mo ∧ mo ≤ 12 ∧ 1 ≤ d ∧ d ≤ 31 ∧
      (1000 ≤ y → y ≤ 9999 →
        isCanonicalDateStr (Gendata.parse_date_time now date_text).date = true) ∧
      (Gendata.parse_date_time now date_text).date ≠ "" := by
  obtain ⟨hy, hm1, hm2, hd1, hd2⟩ := hwf
  refine ⟨extract_dates_ne_empty now text, ?_⟩
  rw [parse_date_time_eq]
  by_cases hempty : date_text = ""
  · rw [if_pos hempty]
    refine ⟨now.year, now.month, now.day, rfl, hy, hm1, hm2, hd1, hd2, ?_, ?_⟩
    · intro hya hyb
      exact canonical_render hya hyb (by omega) (by omega)
    · exact renderDate_ne_empty _ _ _
  · rw [if_neg hempty]
    cases htry : Gendata.tryFormats Gendata.fmtList (pyStrip date_text).toList with
    | none =>
      refine ⟨now.year, now.month, now.day, rfl, hy, hm1, hm2, hd1, hd2, ?_, ?_⟩
      · intro hya hyb
        exact canonical_render hya hyb (by omega) (by omega)
      · exact renderDate_ne_empty _ _ _
    | some pr =>
      obtain ⟨tm, hasH⟩ := pr
      have hv := tryFormats_valid Gendata.fmtList _ tm hasH htry
      simp only [Gendata.validTM, Bool.and_eq_true, decide_eq_true_eq] at hv
      obtain ⟨⟨⟨⟨⟨⟨⟨hv1, hv2⟩, hv3⟩, hv4⟩, hv5⟩, _⟩, _⟩, _⟩ := hv
      have hd31 : tm.d ≤ 31 := le_trans hv5 (daysInMonth_le tm.y tm.mo)
      refine ⟨tm.y, tm.mo, tm.d, rfl, hv1, hv2, hv3, hv4, hd31, ?_, ?_⟩
      · intro hya hyb
        exact canonical_render hya hyb (by omega) (by omega)
      · exact renderDate_ne_empty _ _ _

/-- Witness for C3 (amended) at the processing instant `now0` and the text
`"25 December 2023"`. -/
theorem claim_C3_amended_witness :
    Extr.extract_dates now0 "25 December 2023" ≠ "" ∧
    ∃ y mo d : Nat,
      (Gendata.parse_date_time now0 "25 December 2023").date =
        fmtYear y ++ "-" ++ pad2 mo ++ "-" ++ pad2 d ∧
      1 ≤ y ∧ 1 ≤ mo ∧ mo ≤ 12 ∧ 1 ≤ d ∧ d ≤ 31 ∧
      (1000 ≤ y → y ≤ 9999 →
        isCanonicalDateStr (Gendata.parse_date_time now0 "25 December 2023").date = true) ∧
      (Gendata.parse_date_time now0 "25 December 2023").date ≠ "" :=
  claim_C3_amended now0 "25 December 2023" "25 December 2023" (by decide)

/-- Counterexample for C3 as stated: the text pipeline produces an incident
whose date field is `"25 December 2023"` — non-empty, but not matching the
canonical `YYYY-MM-DD` pattern. -/
theorem claim_C3_counterexample :
    Extr.extract_incidents_from_text sentTok0 now0 dateTestText =
      [{ type := "casualties", description := dateTestText,
         date := "25 December 2023", location := some "Rafah",
         additional_locations := [], casualties := none }] ∧
    isCanonicalDateStr "25 December 2023" = false := by
  exact ⟨by decide, by decide⟩

end PalGeno
